import Mathlib

/-!
# Verification of the `mpeg2ts` TS demultiplexer / PES reassembler

A shallow embedding of the repository's core (the PES packet decoder of
`src/pes/decoder.rs`, the PES packet reader of `src/pes/reader.rs`, and the
TS packet reader of `src/ts/reader.rs`) together with proofs about the
claims of the specification.

Bytes are modelled as `Nat` (each `< 256` in concrete inputs), byte buffers
as `List Nat`, `u16` fields as `Nat`, and Rust's `HashMap` as an association
list with `insert` replacing in place (a deterministic refinement of the
unspecified `HashMap` iteration order; `keys().next()` is the head of the
list).  Fallible Rust functions returning `Result<T>` become
`Except ErrorKind T`.
-/

namespace Mpeg2Ts

/-- Error kinds of the repository (`ErrorKind` in the crate): `InvalidInput`,
`Other`, and the I/O failure of the underlying byte source. -/
inductive ErrorKind where
  | invalidInput
  | other
  | ioError
  deriving DecidableEq, Repr

/-- Decidable equality for `Except`, so the embedding's results can be
evaluated on concrete inputs. -/
instance {ε α : Type} [DecidableEq ε] [DecidableEq α] :
    DecidableEq (Except ε α) := fun x y =>
  match x, y with
  | .error e, .error e' =>
      if h : e = e' then .isTrue (by rw [h])
      else .isFalse (fun hc => h (Except.error.inj hc))
  | .ok a, .ok b =>
      if h : a = b then .isTrue (by rw [h])
      else .isFalse (fun hc => h (Except.ok.inj hc))
  | .error _, .ok _ => .isFalse (fun hc => Except.noConfusion hc)
  | .ok _, .error _ => .isFalse (fun hc => Except.noConfusion hc)

/-- A 13-bit program identifier.  For the decoder-level claims the numeric
value is all that matters, so we use a plain `Nat`. -/
abbrev Pid := Nat

/-- Modelled from the spec (§3, §4.D): the PES header codec lives in
`src/pes/packet.rs`, which is not among the supplied sources.  Fields are the
ones the spec lists for `PesHeader`: stream_id, priority,
data_alignment_indicator, copyright, original_or_copy, optional PTS, DTS and
ESCR timestamps. -/
structure PesHeader where
  streamId : Nat
  priority : Bool
  dataAlignmentIndicator : Bool
  copyright : Bool
  originalOrCopy : Bool
  pts : Option Nat
  dts : Option Nat
  escr : Option Nat
  deriving DecidableEq, Repr

namespace PesHeader

/-- Modelled from the spec (§4.D): `optional_header_len()` returns
`3 + the optional-header-len byte` when the optional header region is present
and `0` otherwise; the region is absent for the "no optional header" private
streams (the spec does not enumerate them; we take padding_stream `0xBE` and
private_stream_2 `0xBF`).  PTS and DTS each occupy 5 bytes and ESCR 6 bytes
of the optional header. -/
def optional_header_len (h : PesHeader) : Nat :=
  if h.streamId = 0xBE ∨ h.streamId = 0xBF then 0
  else
    3 + (if h.pts.isSome then 5 else 0) + (if h.dts.isSome then 5 else 0) +
      (if h.escr.isSome then 6 else 0)

end PesHeader

/-- `Pes` payload of a TS packet (spec §3): header, the on-wire 16-bit
`pes_packet_len` field (0 = unbounded), and the body prefix carried by this
particular TS packet. -/
structure Pes where
  header : PesHeader
  pes_packet_len : Nat
  data : List Nat
  deriving DecidableEq, Repr

/-- `PesPacket<Vec<u8>>` (src/pes/mod.rs): header plus concatenated body. -/
structure PesPacketV where
  header : PesHeader
  data : List Nat
  deriving DecidableEq, Repr

/-- `PartialPesPacket` (src/pes/mod.rs and the private copy in
src/pes/reader.rs): an in-flight PES packet together with the expected total
body size (`None` when unbounded). -/
structure PartialPesPacket where
  packet : PesPacketV
  data_len : Option Nat
  deriving DecidableEq, Repr

/-- Association-list model of `HashMap<Pid, PartialPesPacket>`. -/
abbrev PesMap := List (Pid × PartialPesPacket)

namespace PesMap

/-- `HashMap::get`. -/
def lookup (m : PesMap) (pid : Pid) : Option PartialPesPacket :=
  match m with
  | [] => none
  | (k, v) :: rest => if k = pid then some v else lookup rest pid

/-- `HashMap::insert`: replaces in place, returning the evicted prior value
(`HashMap::insert`'s return). -/
def insert (m : PesMap) (pid : Pid) (v : PartialPesPacket) :
    PesMap × Option PartialPesPacket :=
  match m with
  | [] => ([(pid, v)], none)
  | (k, w) :: rest =>
      if k = pid then ((pid, v) :: rest, some w)
      else
        let (rest', old) := insert rest pid v
        ((k, w) :: rest', old)

/-- `HashMap::remove` (value already obtained through `lookup`). -/
def remove (m : PesMap) (pid : Pid) : PesMap :=
  match m with
  | [] => []
  | (k, w) :: rest => if k = pid then rest else (k, w) :: remove rest pid

end PesMap

/-- TS payload union (spec §3).  The PAT payload is the list of announced
program_map PIDs of non-network programs and the PMT payload the list of
elementary-stream PIDs; the decoder ignores both. -/
inductive TsPayload where
  | pat (programMapPids : List Pid)
  | pmt (elementaryPids : List Pid)
  | pes (p : Pes)
  | null
  | raw (bytes : List Nat)
  deriving DecidableEq, Repr

/-- `TsHeader` (spec §3): the stored header fields; the
adaptation_field_control and payload_unit_start_indicator bits are consumed
during parsing and not stored.  The scrambling control (2 bits) and
continuity counter (4 bits) are plain `Nat`s. -/
structure TsHeader where
  transport_error_indicator : Bool
  transport_priority : Bool
  pid : Pid
  transport_scrambling_control : Nat
  continuity_counter : Nat
  deriving DecidableEq, Repr

/-- Modelled from the spec (§3): the adaptation-field codec is not among the
supplied sources; only the three flags matter to no claim, so the optional
PCR/OPCR/splice/private/extension parts are elided. -/
structure AdaptationField where
  discontinuity_indicator : Bool
  random_access_indicator : Bool
  es_priority_indicator : Bool
  deriving DecidableEq, Repr

/-- A parsed TS packet (spec §3). -/
structure TsPacket where
  header : TsHeader
  adaptation_field : Option AdaptationField
  payload : Option TsPayload
  deriving DecidableEq, Repr

/-- `PesPacketDecoder` state (src/pes/decoder.rs, lines 14-19). -/
structure PesPacketDecoder where
  pes_packets : PesMap
  ignore_packet_header_length : Bool
  eos : Bool
  deriving DecidableEq, Repr

namespace PesPacketDecoder

/-- `PesPacketDecoder::new` (decoder.rs lines 23-33).  `env::var` is modelled
by its outcome `envVar : Option (List Char)`, the character sequence of the
variable's value (`none` covers both an absent and an unreadable value,
which `unwrap_or("false")` maps to `"false"`); Rust's `to_lowercase` is
`List.map Char.toLower`. -/
def new (envVar : Option (List Char)) : PesPacketDecoder :=
  { pes_packets := []
    ignore_packet_header_length :=
      (envVar.getD "false".toList).map Char.toLower == "true".toList
    eos := false }

/-- `PesPacketDecoder::handle_eos` (decoder.rs lines 36-48): takes the first
key of the map, removes its partial and emits it, asserting that it was
unbounded or completed to its declared length. -/
def handle_eos (d : PesPacketDecoder) :
    Except ErrorKind (PesPacketDecoder × Option PesPacketV) :=
  match d.pes_packets with
  | [] => .ok (d, none)
  | (_, part) :: rest =>
      if part.data_len = none ∨ part.data_len = some part.packet.data.length then
        .ok ({ d with pes_packets := rest }, some part.packet)
      else
        .error .invalidInput

/-- The tail of `PesPacketDecoder::handle_pes_payload` (decoder.rs lines
66-78) once `data_len` has been computed: build the new `PartialPesPacket`
holding `pes.data`, insert it by `pid`, and return the evicted prior
partial's packet if there was one. -/
def insert_new_part (d : PesPacketDecoder) (pid : Pid) (pes : Pes)
    (data_len : Option Nat) : PesPacketDecoder × Option PesPacketV :=
  let packet : PesPacketV := { header := pes.header, data := pes.data }
  let part : PartialPesPacket := { packet := packet, data_len := data_len }
  let (m', evicted) := PesMap.insert d.pes_packets pid part
  ({ d with pes_packets := m' }, evicted.map (·.packet))

/-- `PesPacketDecoder::handle_pes_payload` (decoder.rs lines 51-79): compute
`data_len` (`None` when the ignore flag is set or the declared length is 0,
`InvalidInput` when the declared length is smaller than the optional header
length), then store the new partial, evicting and emitting any prior one. -/
def handle_pes_payload (d : PesPacketDecoder) (pid : Pid) (pes : Pes) :
    Except ErrorKind (PesPacketDecoder × Option PesPacketV) :=
  if d.ignore_packet_header_length || pes.pes_packet_len == 0 then
    .ok (insert_new_part d pid pes none)
  else if pes.pes_packet_len ≥ pes.header.optional_header_len then
    .ok (insert_new_part d pid pes
          (some (pes.pes_packet_len - pes.header.optional_header_len)))
  else
    .error .invalidInput

/-- The tail of `PesPacketDecoder::handle_raw_payload` (decoder.rs lines
88-104) after the partial has been removed from the map (`d` is the
post-removal state) and the raw bytes appended (`part`): emit on exact
declared length, drop (with a trace log) on overflow, reinsert otherwise. -/
def handle_appended (d : PesPacketDecoder) (pid : Pid)
    (part : PartialPesPacket) :
    Except ErrorKind (PesPacketDecoder × Option PesPacketV) :=
  if some part.packet.data.length = part.data_len then
    .ok (d, some part.packet)
  else
    match part.data_len with
    | some expected =>
        if part.packet.data.length > expected then
          .ok (d, none)
        else
          .ok ({ d with pes_packets := (PesMap.insert d.pes_packets pid part).1 },
               none)
    | none =>
        .ok ({ d with pes_packets := (PesMap.insert d.pes_packets pid part).1 },
             none)

/-- `PesPacketDecoder::handle_raw_payload` (decoder.rs lines 82-105). -/
def handle_raw_payload (d : PesPacketDecoder) (pid : Pid) (data : List Nat) :
    Except ErrorKind (PesPacketDecoder × Option PesPacketV) :=
  match PesMap.lookup d.pes_packets pid with
  | none => .ok (d, none)
  | some part =>
      handle_appended { d with pes_packets := PesMap.remove d.pes_packets pid }
        pid
        { part with
          packet := { part.packet with data := part.packet.data ++ data } }

/-- `PesPacketDecoder::process_ts_packet` (decoder.rs lines 108-123). -/
def process_ts_packet (d : PesPacketDecoder) (ts : TsPacket) :
    Except ErrorKind (PesPacketDecoder × Option PesPacketV) :=
  if d.eos then
    d.handle_eos
  else
    match ts.payload with
    | some (.pes p) => d.handle_pes_payload ts.header.pid p
    | some (.raw b) => d.handle_raw_payload ts.header.pid b
    | _ => .ok (d, none)

/-- `PesPacketDecoder::flush` (decoder.rs lines 126-133). -/
def flush (d : PesPacketDecoder) :
    Except ErrorKind (PesPacketDecoder × Option PesPacketV) :=
  if d.eos then
    d.handle_eos
  else
    { d with eos := true }.handle_eos

/-- Feeds a list of TS packets to the decoder, collecting all emitted PES
packets. -/
def processAll (d : PesPacketDecoder) : List TsPacket →
    Except ErrorKind (PesPacketDecoder × List PesPacketV)
  | [] => .ok (d, [])
  | ts :: rest =>
      match d.process_ts_packet ts with
      | .error e => .error e
      | .ok (d', out) =>
          match d'.processAll rest with
          | .error e => .error e
          | .ok (d'', outs) => .ok (d'', out.toList ++ outs)

end PesPacketDecoder

/-- `PesPacketReader<R>` state (src/pes/reader.rs, lines 31-40).  The
underlying `ReadTsPacket` source `R` is modelled as the list of TS packets it
will yield (`read_ts_packet` pops the head; `TsPacketReader`'s implementation
never returns an error, see `TsPacketReader.read_ts_packet` below). -/
structure PesPacketReader where
  peeked_packet : Option PesPacketV
  ts_packets : List TsPacket
  pes_packets : PesMap
  eos : Bool
  is_marked : Bool
  back_buffer : List PesPacketV
  ignore_packet_header_length : Bool
  deriving DecidableEq, Repr

namespace PesPacketReader

/-- `PesPacketReader::new` (reader.rs lines 43-54); the environment variable
is modelled as in `PesPacketDecoder.new`. -/
def new (envVar : Option (List Char)) (tsPackets : List TsPacket) :
    PesPacketReader :=
  { peeked_packet := none
    ts_packets := tsPackets
    pes_packets := []
    eos := false
    is_marked := false
    back_buffer := []
    ignore_packet_header_length :=
      (envVar.getD "false".toList).map Char.toLower == "true".toList }

/-- `PesPacketReader::handle_eos` (reader.rs lines 66-78): the reader's own
copy of the decoder's end-of-stream drain. -/
def handle_eos (r : PesPacketReader) :
    Except ErrorKind (PesPacketReader × Option PesPacketV) :=
  match r.pes_packets with
  | [] => .ok (r, none)
  | (_, part) :: rest =>
      if part.data_len = none ∨ part.data_len = some part.packet.data.length then
        .ok ({ r with pes_packets := rest }, some part.packet)
      else
        .error .invalidInput

/-- The tail of `PesPacketReader::handle_pes_payload` (reader.rs lines
95-118) once `data_len` has been computed: the reader's own copy of the
insert-and-evict step. -/
def insert_new_part (r : PesPacketReader) (pid : Pid) (pes : Pes)
    (data_len : Option Nat) : PesPacketReader × Option PesPacketV :=
  let packet : PesPacketV := { header := pes.header, data := pes.data }
  let part : PartialPesPacket := { packet := packet, data_len := data_len }
  let (m', evicted) := PesMap.insert r.pes_packets pid part
  ({ r with pes_packets := m' }, evicted.map (·.packet))

/-- `PesPacketReader::handle_pes_payload` (reader.rs lines 80-119): the
reader's own copy of the decoder's PES-payload handler (the commented-out
completeness check in the source is dead code). -/
def handle_pes_payload (r : PesPacketReader) (pid : Pid) (pes : Pes) :
    Except ErrorKind (PesPacketReader × Option PesPacketV) :=
  if r.ignore_packet_header_length || pes.pes_packet_len == 0 then
    .ok (insert_new_part r pid pes none)
  else if pes.pes_packet_len ≥ pes.header.optional_header_len then
    .ok (insert_new_part r pid pes
          (some (pes.pes_packet_len - pes.header.optional_header_len)))
  else
    .error .invalidInput

/-- The tail of `PesPacketReader::handle_raw_payload` (reader.rs lines
129-145) after removal and append: the reader's own copy of the
emit/drop/reinsert step. -/
def handle_appended (r : PesPacketReader) (pid : Pid)
    (part : PartialPesPacket) :
    Except ErrorKind (PesPacketReader × Option PesPacketV) :=
  if some part.packet.data.length = part.data_len then
    .ok (r, some part.packet)
  else
    match part.data_len with
    | some expected =>
        if part.packet.data.length > expected then
          .ok (r, none)
        else
          .ok ({ r with pes_packets := (PesMap.insert r.pes_packets pid part).1 },
               none)
    | none =>
        .ok ({ r with pes_packets := (PesMap.insert r.pes_packets pid part).1 },
             none)

/-- `PesPacketReader::handle_raw_payload` (reader.rs lines 121-146): the
reader's own copy of the decoder's raw-payload handler. -/
def handle_raw_payload (r : PesPacketReader) (pid : Pid) (data : List Nat) :
    Except ErrorKind (PesPacketReader × Option PesPacketV) :=
  match PesMap.lookup r.pes_packets pid with
  | none => .ok (r, none)
  | some part =>
      handle_appended { r with pes_packets := PesMap.remove r.pes_packets pid }
        pid
        { part with
          packet := { part.packet with data := part.packet.data ++ data } }

/-- The `while let Some(ts_packet) = read_ts_packet()` loop of
`PesPacketReader::read_next_pes_packet` (reader.rs lines 153-163), recursing
over the TS packet source; the list argument is the reader's `ts_packets`. -/
def read_loop : List TsPacket → PesPacketReader →
    Except ErrorKind (PesPacketReader × Option PesPacketV)
  | [], r =>
      { r with ts_packets := [], eos := true }.handle_eos
  | ts :: rest, r =>
      let r := { r with ts_packets := rest }
      match (match ts.payload with
             | some (.pes p) => r.handle_pes_payload ts.header.pid p
             | some (.raw b) => r.handle_raw_payload ts.header.pid b
             | _ => .ok (r, none)) with
      | .error e => .error e
      | .ok (r', some p) => .ok (r', some p)
      | .ok (r', none) => read_loop rest r'

/-- `PesPacketReader::read_next_pes_packet` (reader.rs lines 148-167). -/
def read_next_pes_packet (r : PesPacketReader) :
    Except ErrorKind (PesPacketReader × Option PesPacketV) :=
  if r.eos then
    r.handle_eos
  else
    read_loop r.ts_packets r

/-- The final step of `PesPacketReader::read_pes_packet` (reader.rs lines
189-194): while marked, a `Some` result is also pushed onto the
back-buffer. -/
def push_if_marked (x : Except ErrorKind (PesPacketReader × Option PesPacketV)) :
    Except ErrorKind (PesPacketReader × Option PesPacketV) :=
  match x with
  | .error e => .error e
  | .ok (r', pkt) =>
      if r'.is_marked then
        match pkt with
        | some p => .ok ({ r' with back_buffer := r'.back_buffer ++ [p] }, pkt)
        | none => .ok (r', pkt)
      else
        .ok (r', pkt)

/-- `PesPacketReader::read_pes_packet` (reader.rs lines 178-195): peek slot
first, then the back-buffer (when not marked), then the underlying stream;
while marked, every `Some` result is also pushed onto the back-buffer. -/
def read_pes_packet (r : PesPacketReader) :
    Except ErrorKind (PesPacketReader × Option PesPacketV) :=
  push_if_marked
    (match r.peeked_packet with
     | some p => .ok ({ r with peeked_packet := none }, some p)
     | none =>
         match r.back_buffer, r.is_marked with
         | p :: rest, false => .ok ({ r with back_buffer := rest }, some p)
         | _, _ => r.read_next_pes_packet)

/-- `PesPacketReader::peek_pes_packet` (reader.rs lines 170-176): fills the
peek slot by a normal read, turning an error into `None`
(`.unwrap_or(None)`).  On the error branch the embedding keeps the pre-read
state with an emptied peek slot; only the returned value is observable
through this interface. -/
def peek_pes_packet (r : PesPacketReader) : PesPacketReader × Option PesPacketV :=
  match r.peeked_packet with
  | some p => (r, some p)
  | none =>
      match r.read_pes_packet with
      | .ok (r', p) => ({ r' with peeked_packet := p }, p)
      | .error _ => ({ r with peeked_packet := none }, none)

/-- `PesPacketReader::mark` (reader.rs lines 197-208). -/
def mark (r : PesPacketReader) : Except ErrorKind PesPacketReader :=
  if r.is_marked then
    .error .other
  else
    let r := { r with is_marked := true }
    match r.peeked_packet with
    | some p => .ok { r with back_buffer := r.back_buffer ++ [p] }
    | none => .ok r

/-- `PesPacketReader::reset` (reader.rs lines 210-215). -/
def reset (r : PesPacketReader) : Except ErrorKind PesPacketReader :=
  if r.is_marked then
    .ok { r with is_marked := false, peeked_packet := none }
  else
    .error .other

/-- `PesPacketReader::has_back_buffer` (reader.rs lines 217-219). -/
def has_back_buffer (r : PesPacketReader) : Bool :=
  !r.back_buffer.isEmpty

/-- `k` successive `read_pes_packet` calls, collecting the returned values. -/
def readN : Nat → PesPacketReader →
    Except ErrorKind (PesPacketReader × List (Option PesPacketV))
  | 0, r => .ok (r, [])
  | n + 1, r =>
      match r.read_pes_packet with
      | .error e => .error e
      | .ok (r', o) =>
          match readN n r' with
          | .error e => .error e
          | .ok (r'', os) => .ok (r'', o :: os)

end PesPacketReader

/-- Reserved PID values (spec §3). -/
def Pid.PAT : Pid := 0x0000

/-- The null PID `0x1FFF` (spec §3). -/
def Pid.NULL : Pid := 0x1FFF

/-- `PidKind` (ts/reader.rs lines 166-169). -/
inductive PidKind where
  | pmt
  | pes
  deriving DecidableEq, Repr

/-- Association-list model of `HashMap<Pid, PidKind>`. -/
abbrev PidMap := List (Pid × PidKind)

namespace PidMap

/-- `HashMap::get`. -/
def lookup (m : PidMap) (pid : Pid) : Option PidKind :=
  match m with
  | [] => none
  | (k, v) :: rest => if k = pid then some v else lookup rest pid

/-- `HashMap::insert`, replacing in place. -/
def insert (m : PidMap) (pid : Pid) (v : PidKind) : PidMap :=
  match m with
  | [] => [(pid, v)]
  | (k, w) :: rest =>
      if k = pid then (pid, v) :: rest else (k, w) :: insert rest pid v

end PidMap

/-- Modelled from the spec (§4.B-§4.D, §6): the byte-level codecs
(`TsHeader::read_from`, `Pat::read_from`, `Pmt::read_from`, `Pes::read_from`,
`Bytes::read_from`) live in files that are not among the supplied sources.  A
188-byte wire packet is represented by its header fields together with the
parse result of its payload region under each codec the dispatch may apply:
`asPat` is the list of program_map PIDs of the non-network programs of the
PAT section (`none` if the region is not a valid PAT), `asPmt` the list of
elementary-stream PIDs of the PMT section, `asPes` the parsed PES prefix, and
`raw` the region's bytes (`Bytes::read_from` and `Null::read_from` always
succeed).  A failed payload parse consumes the whole 188-byte window, so per
the spec reading resumes at the next 188-byte boundary. -/
structure WirePacket where
  syncByte : Nat
  transport_error_indicator : Bool
  payload_unit_start_indicator : Bool
  transport_priority : Bool
  pid : Pid
  transport_scrambling_control : Nat
  adaptation_field_control : Nat
  continuity_counter : Nat
  adapt : Option AdaptationField
  asPat : Option (List Pid)
  asPmt : Option (List Pid)
  asPes : Option Pes
  raw : List Nat
  deriving DecidableEq, Repr

namespace WirePacket

/-- `AdaptationFieldControl::has_adaptation_field`: control values 2 and 3
carry an adaptation field (spec §3). -/
def hasAdaptationField (w : WirePacket) : Bool :=
  w.adaptation_field_control == 2 || w.adaptation_field_control == 3

/-- `AdaptationFieldControl::has_payload`: control values 1 and 3 carry a
payload (spec §3). -/
def hasPayload (w : WirePacket) : Bool :=
  w.adaptation_field_control == 1 || w.adaptation_field_control == 3

/-- The PIDs a wire packet would register as PMT PIDs if processed: the PAT
table entries of a sync-correct PAT packet that carries a payload. -/
def patPids (w : WirePacket) : List Pid :=
  if w.syncByte = 0x47 ∧ w.pid = Pid.PAT ∧ w.hasPayload = true then
    w.asPat.getD []
  else
    []

end WirePacket

/-- One read attempt of the underlying byte source: either the next 188-byte
wire packet, or a transient I/O failure of `Read::read` (consumed by the
attempt that observes it). -/
inductive SourceEvent where
  | packet (w : WirePacket)
  | ioFailure
  deriving DecidableEq, Repr

/-- The `TsPacket` a successfully parsed wire packet yields: stored header
fields, the adaptation field when adaptation_field_control indicates one,
and the dispatched payload. -/
def parsedPacket (w : WirePacket) (payload : Option TsPayload) : TsPacket :=
  { header :=
      { transport_error_indicator := w.transport_error_indicator
        transport_priority := w.transport_priority
        pid := w.pid
        transport_scrambling_control := w.transport_scrambling_control
        continuity_counter := w.continuity_counter }
    adaptation_field := if w.hasAdaptationField then w.adapt else none
    payload := payload }

/-- The parsing part of `TsPacketReader::read_next_packet`
(ts/reader.rs lines 46-124) on one wire packet: header parse (sync-byte
mismatch is `InvalidInput`), adaptation field, then payload dispatch through
the PID-kind table, which is updated by PAT and PMT payloads.  The final
`track_assert_eq!(reader.limit(), 0)` always holds in this model because a
successful payload parse consumes the whole window. -/
def parseWire (w : WirePacket) (pids : PidMap) :
    Except ErrorKind (PidMap × TsPacket) :=
  if w.syncByte ≠ 0x47 then
    .error .invalidInput
  else if w.hasPayload then
    if w.pid = Pid.PAT then
      match w.asPat with
      | none => .error .invalidInput
      | some table =>
          .ok (table.foldl (fun m p => PidMap.insert m p .pmt) pids,
               parsedPacket w (some (.pat table)))
    else if w.pid = Pid.NULL then
      .ok (pids, parsedPacket w (some .null))
    else if (1 ≤ w.pid ∧ w.pid ≤ 0x1F) ∨ w.pid = 0x1FFB then
      .ok (pids, parsedPacket w (some (.raw w.raw)))
    else
      match PidMap.lookup pids w.pid with
      | none =>
          .ok (pids, parsedPacket w (some .null))
      | some .pmt =>
          match w.asPmt with
          | none => .error .invalidInput
          | some esPids =>
              .ok (esPids.foldl (fun m p => PidMap.insert m p .pes) pids,
                   parsedPacket w (some (.pmt esPids)))
      | some .pes =>
          if w.payload_unit_start_indicator then
            match w.asPes with
            | none => .error .invalidInput
            | some p =>
                .ok (pids, parsedPacket w (some (.pes p)))
          else
            .ok (pids, parsedPacket w (some (.raw w.raw)))
  else
    .ok (pids, parsedPacket w none)

/-- One call to `TsPacketReader::read_next_packet` on the next source event:
an empty source is clean end-of-stream, an I/O failure of the first `read`
surfaces as an `Io` error (`track_io!`), and a wire packet is parsed with
`parseWire`. -/
def readEvent (e : SourceEvent) (pids : PidMap) :
    Except ErrorKind (PidMap × Option TsPacket) :=
  match e with
  | .ioFailure => .error .ioError
  | .packet w =>
      match parseWire w pids with
      | .error err => .error err
      | .ok (pids', pkt) => .ok (pids', some pkt)

/-- `TsPacketReader` state (ts/reader.rs lines 20-25): a one-packet peek
slot, the underlying byte source (as the list of its remaining read
outcomes), and the PID-kind table. -/
structure TsPacketReader where
  peeked_packet : Option TsPacket
  stream : List SourceEvent
  pids : PidMap
  deriving DecidableEq, Repr

namespace TsPacketReader

/-- `TsPacketReader::new` (ts/reader.rs lines 28-34). -/
def new (stream : List SourceEvent) : TsPacketReader :=
  { peeked_packet := none, stream := stream, pids := [] }

/-- `TsPacketReader::read_next_packet` (ts/reader.rs lines 46-124): consumes
the next source event; errors do not update the PID table (all PID inserts
happen after a successful parse of the packet that carries them). -/
def read_next_packet (s : TsPacketReader) :
    TsPacketReader × Except ErrorKind (Option TsPacket) :=
  match s.stream with
  | [] => (s, .ok none)
  | e :: rest =>
      match readEvent e s.pids with
      | .error err => ({ s with stream := rest }, .error err)
      | .ok (pids', pkt) => ({ s with stream := rest, pids := pids' }, .ok pkt)

/-- The retry loop of `TsPacketReader::get_next_available_packet`
(ts/reader.rs lines 126-142) over the event list: on `Err`, the packet is
dropped with a trace log and the loop re-reads. -/
def getAvailLoop : List SourceEvent → PidMap →
    List SourceEvent × PidMap × Option TsPacket
  | [], pids => ([], pids, none)
  | e :: rest, pids =>
      match readEvent e pids with
      | .ok (pids', pkt) => (rest, pids', pkt)
      | .error _ => getAvailLoop rest pids

/-- `TsPacketReader::get_next_available_packet` (ts/reader.rs lines
126-142). -/
def get_next_available_packet (s : TsPacketReader) :
    TsPacketReader × Option TsPacket :=
  let (stream', pids', pkt) := getAvailLoop s.stream s.pids
  ({ s with stream := stream', pids := pids' }, pkt)

/-- `TsPacketReader::read_ts_packet` (ts/reader.rs lines 154-163): serves the
peek slot first, otherwise `Ok(get_next_available_packet())` — the
implementation never constructs an `Err`. -/
def read_ts_packet (s : TsPacketReader) :
    TsPacketReader × Except ErrorKind (Option TsPacket) :=
  match s.peeked_packet with
  | some p => ({ s with peeked_packet := none }, .ok (some p))
  | none =>
      let (s', pkt) := s.get_next_available_packet
      (s', .ok pkt)

/-- `TsPacketReader::peek_ts_packet` (ts/reader.rs lines 145-152). -/
def peek_ts_packet (s : TsPacketReader) : TsPacketReader × Option TsPacket :=
  match s.peeked_packet with
  | some p => (s, some p)
  | none =>
      let (s', pkt) := s.get_next_available_packet
      ({ s' with peeked_packet := pkt }, pkt)

end TsPacketReader

/-! ## Concrete fixtures

Small concrete packets and reader states used to instantiate the theorems
below. -/

/-- A PES header with ordinary (audio) stream id and no timestamps; its
optional header length is 3. -/
def sampleHeader : PesHeader :=
  { streamId := 0xC0, priority := false, dataAlignmentIndicator := false,
    copyright := false, originalOrCopy := true, pts := none, dts := none,
    escr := none }

/-- A TS header on the given PID with all other fields zeroed. -/
def sampleTsHeader (pid : Pid) : TsHeader :=
  { transport_error_indicator := false, transport_priority := false,
    pid := pid, transport_scrambling_control := 0, continuity_counter := 0 }

/-- A TS packet bearing a PES payload with `sampleHeader`, the given declared
length and body prefix. -/
def pesTsPacket (pid : Pid) (len : Nat) (d : List Nat) : TsPacket :=
  { header := sampleTsHeader pid, adaptation_field := none,
    payload := some (.pes { header := sampleHeader, pes_packet_len := len,
                            data := d }) }

/-- A TS packet bearing a raw payload. -/
def rawTsPacket (pid : Pid) (d : List Nat) : TsPacket :=
  { header := sampleTsHeader pid, adaptation_field := none,
    payload := some (.raw d) }

/-- The PES packet emitted for `sampleHeader` with the given body. -/
def samplePesPacket (d : List Nat) : PesPacketV :=
  { header := sampleHeader, data := d }

/-- A fresh PES packet reader over three unbounded one-byte PES packets on
PID 1; each new PES evicts and emits the previous one, and the last is
emitted at end of stream. -/
def cr0 : PesPacketReader :=
  PesPacketReader.new none
    [pesTsPacket 1 0 [1], pesTsPacket 1 0 [2], pesTsPacket 1 0 [3]]

/-- A reader whose next packet has `pes_packet_len = 2`, smaller than the
optional header length 3, so reading it fails with `InvalidInput`. -/
def badPesReader : PesPacketReader :=
  PesPacketReader.new none [pesTsPacket 1 2 []]

/-- A sync-correct wire packet with payload only and no parseable
table/PES content. -/
def wireBase (pid : Pid) : WirePacket :=
  { syncByte := 0x47, transport_error_indicator := false,
    payload_unit_start_indicator := true, transport_priority := false,
    pid := pid, transport_scrambling_control := 0,
    adaptation_field_control := 1, continuity_counter := 0, adapt := none,
    asPat := none, asPmt := none, asPes := none, raw := [] }

/-- A PAT packet announcing the given program_map PIDs. -/
def patWire (tbl : List Pid) : WirePacket :=
  { wireBase Pid.PAT with asPat := some tbl }

/-- A PMT packet on `pid` announcing the given elementary-stream PIDs. -/
def pmtWire (pid : Pid) (es : List Pid) : WirePacket :=
  { wireBase pid with asPmt := some es }

/-- A null packet (PID `0x1FFF`). -/
def nullWire : WirePacket :=
  { wireBase Pid.NULL with payload_unit_start_indicator := false }

/-- A corrupt 188-byte window whose sync byte is `0x00`. -/
def corruptWire : WirePacket :=
  { nullWire with syncByte := 0x00 }

/-- The TS packet that `nullWire` parses to. -/
def nullTsPacket : TsPacket :=
  { header := sampleTsHeader Pid.NULL, adaptation_field := none,
    payload := some .null }

/-- The mark/read/reset protocol of claim C2 driven over `cr0`, with a
back-buffer left over from a first mark/reset cycle when the second `mark`
is issued: returns the packet read between the second `mark` and `reset`
paired with the first packet read after that `reset`. -/
def c2protocol : Except ErrorKind (Option PesPacketV × Option PesPacketV) := do
  let r1 ← cr0.mark
  let (r2, _) ← r1.read_pes_packet
  let (r3, _) ← r2.read_pes_packet
  let r4 ← r3.reset
  let (r5, _) ← r4.read_pes_packet
  let r6 ← r5.mark
  let (r7, readBetween) ← r6.read_pes_packet
  let r8 ← r7.reset
  let (_, firstAfterReset) ← r8.read_pes_packet
  .ok (readBetween, firstAfterReset)

/-- The peek/mark/read/reset protocol of claim C7 driven over `cr0`: peeks
(filling the peek slot), marks, reads once between mark and reset, resets,
then performs three reads, returning their results. -/
def c7protocol :
    Except ErrorKind (Option PesPacketV × Option PesPacketV × Option PesPacketV) := do
  let (r1, _) := cr0.peek_pes_packet
  let r2 ← r1.mark
  let (r3, _) ← r2.read_pes_packet
  let r4 ← r3.reset
  let (r5, first) ← r4.read_pes_packet
  let (r6, second) ← r5.read_pes_packet
  let (_, third) ← r6.read_pes_packet
  .ok (first, second, third)

/-- Bool-valued C6 invariant: every stored partial whose `data_len` is
`some n` has accumulated at most `n` bytes. -/
def PesPacketDecoder.boundedOk (d : PesPacketDecoder) : Bool :=
  d.pes_packets.all fun kv =>
    match kv.2.data_len with
    | none => true
    | some n => decide (kv.2.packet.data.length ≤ n)

/-- A PES payload carries an initial fragment that does not already exceed
the declared body length (vacuously true when it will be treated as
unbounded, given the decoder's ignore flag). -/
def Pes.fragmentOk (ign : Bool) (p : Pes) : Bool :=
  ign || p.pes_packet_len == 0 ||
    decide (p.data.length ≤ p.pes_packet_len - p.header.optional_header_len)

/-- A TS packet's PES payload (if any) carries an initial fragment that does
not already exceed the declared body length, given the decoder's ignore
flag. -/
def TsPacket.fragmentOk (ign : Bool) (ts : TsPacket) : Bool :=
  match ts.payload with
  | some (.pes p) => p.fragmentOk ign
  | _ => true

/-- Projection of a reader-side handler result onto the reassembly state it
shares with the decoder (the `pes_packets` map, the `eos` flag and the
ignore flag) and the emitted packet. -/
def rproj (x : Except ErrorKind (PesPacketReader × Option PesPacketV)) :
    Except ErrorKind ((PesMap × Bool × Bool) × Option PesPacketV) :=
  match x with
  | .error e => .error e
  | .ok (r, o) =>
      .ok ((r.pes_packets, r.eos, r.ignore_packet_header_length), o)

/-- Projection of a decoder-side handler result onto its reassembly state
and the emitted packet. -/
def dproj (x : Except ErrorKind (PesPacketDecoder × Option PesPacketV)) :
    Except ErrorKind ((PesMap × Bool × Bool) × Option PesPacketV) :=
  match x with
  | .error e => .error e
  | .ok (d, o) =>
      .ok ((d.pes_packets, d.eos, d.ignore_packet_header_length), o)

/-- The reader's packet-pulling driver (`read_loop`) instantiated with the
decoder's handler family, used to compare the two reassembly implementations
over whole packet sequences. -/
def PesPacketDecoder.read_loop : List TsPacket → PesPacketDecoder →
    Except ErrorKind (PesPacketDecoder × Option PesPacketV)
  | [], d => { d with eos := true }.handle_eos
  | ts :: rest, d =>
      match (match ts.payload with
             | some (.pes p) => d.handle_pes_payload ts.header.pid p
             | some (.raw b) => d.handle_raw_payload ts.header.pid b
             | _ => .ok (d, none)) with
      | .error e => .error e
      | .ok (d', some p) => .ok (d', some p)
      | .ok (d', none) => PesPacketDecoder.read_loop rest d'

/-! ## Helper lemmas on the association-list maps -/

namespace PesMap

theorem lookup_insert_self (m : PesMap) (pid : Pid) (v : PartialPesPacket) :
    lookup (insert m pid v).1 pid = some v := by
  induction m with
  | nil => simp [insert, lookup]
  | cons kv rest ih =>
      obtain ⟨k, w⟩ := kv
      by_cases h : k = pid
      · subst h; simp [insert, lookup]
      · simp [insert, lookup, h, ih]

theorem insert_snd (m : PesMap) (pid : Pid) (v : PartialPesPacket) :
    (insert m pid v).2 = lookup m pid := by
  induction m with
  | nil => simp [insert, lookup]
  | cons kv rest ih =>
      obtain ⟨k, w⟩ := kv
      by_cases h : k = pid
      · subst h; simp [insert, lookup]
      · simp [insert, lookup, h, ih]

theorem mem_insert (m : PesMap) (pid : Pid) (v : PartialPesPacket) :
    ∀ x ∈ (insert m pid v).1, x = (pid, v) ∨ x ∈ m := by
  induction m with
  | nil => simp [insert]
  | cons kv rest ih =>
      obtain ⟨k, w⟩ := kv
      by_cases h : k = pid
      · subst h
        intro x hx
        simp only [insert, if_pos rfl] at hx
        rcases List.mem_cons.mp hx with h1 | h2
        · exact Or.inl h1
        · exact Or.inr (List.mem_cons_of_mem _ h2)
      · intro x hx
        simp only [insert, if_neg h] at hx
        rcases List.mem_cons.mp hx with h1 | h2
        · exact Or.inr (h1 ▸ List.mem_cons_self _ _)
        · rcases ih x h2 with h3 | h4
          · exact Or.inl h3
          · exact Or.inr (List.mem_cons_of_mem _ h4)

theorem mem_remove (m : PesMap) (pid : Pid) :
    ∀ x ∈ remove m pid, x ∈ m := by
  induction m with
  | nil => simp [remove]
  | cons kv rest ih =>
      obtain ⟨k, w⟩ := kv
      by_cases h : k = pid
      · subst h
        intro x hx
        simp only [remove, if_pos rfl] at hx
        exact List.mem_cons_of_mem _ hx
      · intro x hx
        simp only [remove, if_neg h] at hx
        rcases List.mem_cons.mp hx with h1 | h2
        · exact h1 ▸ List.mem_cons_self _ _
        · exact List.mem_cons_of_mem _ (ih x h2)

theorem lookup_mem (m : PesMap) (pid : Pid) (v : PartialPesPacket)
    (h : lookup m pid = some v) : (pid, v) ∈ m := by
  induction m with
  | nil => simp [lookup] at h
  | cons kv rest ih =>
      obtain ⟨k, w⟩ := kv
      by_cases hk : k = pid
      · subst hk
        simp [lookup] at h
        rw [← h]
        exact List.mem_cons_self _ _
      · simp only [lookup, if_neg hk] at h
        exact List.mem_cons_of_mem _ (ih h)

theorem lookup_eq_none_of_not_mem_keys (m : PesMap) (pid : Pid)
    (h : pid ∉ m.map Prod.fst) : lookup m pid = none := by
  induction m with
  | nil => simp [lookup]
  | cons kv rest ih =>
      obtain ⟨k, w⟩ := kv
      simp only [List.map_cons, List.mem_cons] at h
      push_neg at h
      have hk : k ≠ pid := fun hkp => h.1 hkp.symm
      simp [lookup, hk, ih h.2]

theorem lookup_remove_self (m : PesMap) (pid : Pid)
    (h : (m.map Prod.fst).Nodup) : lookup (remove m pid) pid = none := by
  induction m with
  | nil => simp [remove, lookup]
  | cons kv rest ih =>
      obtain ⟨k, w⟩ := kv
      simp only [List.map_cons, List.nodup_cons] at h
      by_cases hk : k = pid
      · subst hk
        simp only [remove, if_pos rfl]
        exact lookup_eq_none_of_not_mem_keys rest k h.1
      · simp [remove, lookup, hk, ih h.2]

end PesMap

namespace PidMap

theorem lookup_insert (m : PidMap) (k p : Pid) (v : PidKind) :
    lookup (insert m k v) p = if p = k then some v else lookup m p := by
  induction m with
  | nil =>
      by_cases h : p = k
      · subst h; simp [insert, lookup]
      · have h' : ¬k = p := fun e => h e.symm
        simp [insert, lookup, h, h']
  | cons kv rest ih =>
      obtain ⟨k', w⟩ := kv
      by_cases hk : k' = k
      · subst hk
        by_cases hp : p = k'
        · subst hp; simp [insert, lookup]
        · have hp' : ¬k' = p := fun e => hp e.symm
          simp [insert, lookup, hp, hp']
      · by_cases hp : k' = p
        · subst hp
          simp [insert, lookup, hk]
        · simp [insert, lookup, hk, hp, ih]

theorem lookup_foldl_pes (es : List Pid) (p : Pid) :
    ∀ m : PidMap, lookup m p = some .pes →
      lookup (es.foldl (fun m q => insert m q .pes) m) p = some .pes := by
  induction es with
  | nil => intro m h; simpa using h
  | cons q rest ih =>
      intro m h
      simp only [List.foldl_cons]
      apply ih
      rw [lookup_insert]
      by_cases hpq : p = q
      · simp [hpq]
      · simp [hpq, h]

theorem lookup_foldl_pmt_not_mem (es : List Pid) (p : Pid) (hp : p ∉ es) :
    ∀ m : PidMap, lookup (es.foldl (fun m q => insert m q .pmt) m) p = lookup m p := by
  induction es with
  | nil => intro m; simp
  | cons q rest ih =>
      intro m
      simp only [List.mem_cons] at hp
      push_neg at hp
      simp only [List.foldl_cons]
      rw [ih hp.2, lookup_insert, if_neg hp.1]

end PidMap

/-! ## Helper lemmas on the decoder's handlers -/

namespace PesPacketDecoder

theorem handle_eos_shape {d d' : PesPacketDecoder} {o : Option PesPacketV}
    (h : d.handle_eos = .ok (d', o)) :
    d' = { d with pes_packets := d'.pes_packets } := by
  unfold handle_eos at h
  split at h
  · simp only [Except.ok.injEq, Prod.mk.injEq] at h
    rw [← h.1]
  · split at h
    · simp only [Except.ok.injEq, Prod.mk.injEq] at h
      rw [← h.1]
    · simp at h

theorem insert_new_part_fst (d : PesPacketDecoder) (pid : Pid) (pes : Pes)
    (dl : Option Nat) :
    (insert_new_part d pid pes dl).1 =
      { d with
        pes_packets :=
          (PesMap.insert d.pes_packets pid
            { packet := { header := pes.header, data := pes.data },
              data_len := dl }).1 } := rfl

theorem handle_pes_payload_shape {d d' : PesPacketDecoder} {pid : Pid}
    {pes : Pes} {o : Option PesPacketV}
    (h : d.handle_pes_payload pid pes = .ok (d', o)) :
    d' = { d with pes_packets := d'.pes_packets } := by
  unfold handle_pes_payload at h
  split at h
  · simp only [Except.ok.injEq] at h
    have h1 : (insert_new_part d pid pes none).1 = d' := congrArg Prod.fst h
    rw [← h1]
    rfl
  · split at h
    · simp only [Except.ok.injEq] at h
      have h1 : (insert_new_part d pid pes
          (some (pes.pes_packet_len - pes.header.optional_header_len))).1 = d' :=
        congrArg Prod.fst h
      rw [← h1]
      rfl
    · simp at h

theorem handle_appended_shape {d d' : PesPacketDecoder} {pid : Pid}
    {part : PartialPesPacket} {o : Option PesPacketV}
    (h : d.handle_appended pid part = .ok (d', o)) :
    d' = { d with pes_packets := d'.pes_packets } := by
  unfold handle_appended at h
  split at h
  · simp only [Except.ok.injEq, Prod.mk.injEq] at h
    rw [← h.1]
  · split at h
    · split at h
      · simp only [Except.ok.injEq, Prod.mk.injEq] at h
        rw [← h.1]
      · simp only [Except.ok.injEq, Prod.mk.injEq] at h
        rw [← h.1]
    · simp only [Except.ok.injEq, Prod.mk.injEq] at h
      rw [← h.1]

theorem handle_raw_payload_shape {d d' : PesPacketDecoder} {pid : Pid}
    {b : List Nat} {o : Option PesPacketV}
    (h : d.handle_raw_payload pid b = .ok (d', o)) :
    d' = { d with pes_packets := d'.pes_packets } := by
  unfold handle_raw_payload at h
  split at h
  · simp only [Except.ok.injEq, Prod.mk.injEq] at h
    rw [← h.1]
  · have h2 := handle_appended_shape h
    exact h2

theorem process_ts_packet_shape {d d' : PesPacketDecoder} {ts : TsPacket}
    {o : Option PesPacketV}
    (h : d.process_ts_packet ts = .ok (d', o)) :
    d' = { d with pes_packets := d'.pes_packets } := by
  unfold process_ts_packet at h
  split at h
  · exact handle_eos_shape h
  · split at h
    · exact handle_pes_payload_shape h
    · exact handle_raw_payload_shape h
    · simp only [Except.ok.injEq, Prod.mk.injEq] at h
      rw [← h.1]

theorem flush_shape {d d' : PesPacketDecoder} {o : Option PesPacketV}
    (h : d.flush = .ok (d', o)) :
    d'.ignore_packet_header_length = d.ignore_packet_header_length := by
  unfold flush at h
  split at h
  · rw [handle_eos_shape h]
  · rw [handle_eos_shape h]

/-- With the ignore flag set, a successful `handle_pes_payload` stores an
unbounded partial holding exactly the PES fragment. -/
theorem handle_pes_payload_lookup_unbounded {d d' : PesPacketDecoder}
    {pid : Pid} {pes : Pes} {o : Option PesPacketV}
    (hig : d.ignore_packet_header_length = true)
    (h : d.handle_pes_payload pid pes = .ok (d', o)) :
    PesMap.lookup d'.pes_packets pid =
      some { packet := { header := pes.header, data := pes.data },
             data_len := none } := by
  have hc : (d.ignore_packet_header_length || pes.pes_packet_len == 0) = true := by
    rw [hig]; rfl
  unfold handle_pes_payload at h
  rw [if_pos hc] at h
  simp only [Except.ok.injEq] at h
  have h3 : (insert_new_part d pid pes none).1 = d' := by rw [h]
  rw [← h3, insert_new_part_fst]
  exact PesMap.lookup_insert_self _ _ _

/-- With the ignore flag unset and a non-zero declared length, a successful
`handle_pes_payload` stores a partial bounded by
`pes_packet_len − optional_header_len` and holding exactly the PES
fragment. -/
theorem handle_pes_payload_lookup_bounded {d d' : PesPacketDecoder}
    {pid : Pid} {pes : Pes} {o : Option PesPacketV}
    (hig : d.ignore_packet_header_length = false)
    (hlen : pes.pes_packet_len ≠ 0)
    (h : d.handle_pes_payload pid pes = .ok (d', o)) :
    PesMap.lookup d'.pes_packets pid =
      some { packet := { header := pes.header, data := pes.data },
             data_len :=
               some (pes.pes_packet_len - pes.header.optional_header_len) } := by
  have hb : (pes.pes_packet_len == 0) = false := beq_eq_false_iff_ne.mpr hlen
  have hc : ¬((d.ignore_packet_header_length || pes.pes_packet_len == 0) = true) := by
    rw [hig, hb]; simp
  unfold handle_pes_payload at h
  rw [if_neg hc] at h
  split at h
  · simp only [Except.ok.injEq] at h
    have h3 : (insert_new_part d pid pes
        (some (pes.pes_packet_len - pes.header.optional_header_len))).1 = d' := by
      rw [h]
    rw [← h3, insert_new_part_fst]
    exact PesMap.lookup_insert_self _ _ _
  · simp at h

/-- A packet emitted by `handle_raw_payload` from a bounded partial has body
length exactly the declared length, and carries the partial's header. -/
theorem handle_raw_payload_emit_exact {d d' : PesPacketDecoder} {pid : Pid}
    {b : List Nat} {p : PesPacketV} {pp : PartialPesPacket} {n : Nat}
    (h : d.handle_raw_payload pid b = .ok (d', some p))
    (hl : PesMap.lookup d.pes_packets pid = some pp)
    (hn : pp.data_len = some n) :
    p.data.length = n ∧ p.header = pp.packet.header := by
  unfold handle_raw_payload at h
  rw [hl] at h
  dsimp only at h
  unfold handle_appended at h
  dsimp only at h
  rw [hn] at h
  split at h
  case isTrue hc =>
    simp only [Option.some.injEq] at hc
    simp only [Except.ok.injEq, Prod.mk.injEq, Option.some.injEq] at h
    constructor
    · rw [← h.2]
      simpa using hc
    · rw [← h.2]
  case isFalse =>
    split at h
    · split at h <;> simp at h
    · simp at h

/-- A packet emitted by `flush` from a state whose first in-flight partial is
bounded has body length exactly the declared length. -/
theorem flush_emit_exact {d d' : PesPacketDecoder} {p : PesPacketV}
    {pid : Pid} {pp : PartialPesPacket} {rest : PesMap} {n : Nat}
    (h : d.flush = .ok (d', some p))
    (hm : d.pes_packets = (pid, pp) :: rest)
    (hn : pp.data_len = some n) :
    p.data.length = n ∧ p = pp.packet := by
  have key : ∀ (d0 : PesPacketDecoder), d0.pes_packets = (pid, pp) :: rest →
      d0.handle_eos = .ok (d', some p) → p.data.length = n ∧ p = pp.packet := by
    intro d0 hm0 h0
    unfold handle_eos at h0
    rw [hm0] at h0
    dsimp only at h0
    split at h0
    case _ hc =>
      simp only [Except.ok.injEq, Prod.mk.injEq, Option.some.injEq] at h0
      have hc2 : n = pp.packet.data.length := by
        rcases hc with hc | hc
        · rw [hn] at hc
          exact absurd hc (by simp)
        · rw [hn] at hc
          exact Option.some.inj hc
      refine ⟨?_, h0.2.symm⟩
      rw [← h0.2]
      exact hc2.symm
    case _ => simp at h0
  unfold flush at h
  split at h
  · exact key d hm h
  · exact key { d with eos := true } hm h

theorem le_of_boundedOk {d : PesPacketDecoder} (hb : d.boundedOk = true)
    {pid : Pid} {pp : PartialPesPacket} {n : Nat}
    (hmem : (pid, pp) ∈ d.pes_packets) (hn : pp.data_len = some n) :
    pp.packet.data.length ≤ n := by
  unfold boundedOk at hb
  rw [List.all_eq_true] at hb
  have h1 := hb (pid, pp) hmem
  simpa [hn] using h1

theorem boundedOk_of_forall {d : PesPacketDecoder}
    (h : ∀ kv ∈ d.pes_packets, ∀ n : Nat, kv.2.data_len = some n →
          kv.2.packet.data.length ≤ n) : d.boundedOk = true := by
  unfold boundedOk
  rw [List.all_eq_true]
  intro kv hkv
  cases hdl : kv.2.data_len with
  | none => simp [hdl]
  | some n =>
      simp only [hdl]
      simpa using h kv hkv n hdl

theorem handle_eos_boundedOk {d d' : PesPacketDecoder} {o : Option PesPacketV}
    (hb : d.boundedOk = true) (h : d.handle_eos = .ok (d', o)) :
    d'.boundedOk = true := by
  rcases hm : d.pes_packets with _ | ⟨⟨pid0, pp0⟩, rest⟩ <;>
    (unfold handle_eos at h; rw [hm] at h; dsimp only at h)
  · simp only [Except.ok.injEq, Prod.mk.injEq] at h
    rw [← h.1]
    exact hb
  · split at h
    · simp only [Except.ok.injEq, Prod.mk.injEq] at h
      rw [← h.1]
      apply boundedOk_of_forall
      intro kv hkv n hn
      exact le_of_boundedOk hb (by rw [hm]; exact List.mem_cons_of_mem _ hkv) hn
    · simp at h

theorem handle_pes_payload_boundedOk {d d' : PesPacketDecoder} {pid : Pid}
    {pes : Pes} {o : Option PesPacketV}
    (hb : d.boundedOk = true)
    (hfrag : pes.fragmentOk d.ignore_packet_header_length = true)
    (h : d.handle_pes_payload pid pes = .ok (d', o)) :
    d'.boundedOk = true := by
  unfold handle_pes_payload at h
  split at h
  case isTrue hc =>
    simp only [Except.ok.injEq] at h
    have h1 : (insert_new_part d pid pes none).1 = d' := by rw [h]
    rw [← h1, insert_new_part_fst]
    apply boundedOk_of_forall
    intro kv hkv n hn
    rcases PesMap.mem_insert _ _ _ kv hkv with he | hmem
    · rw [he] at hn
      simp at hn
    · exact le_of_boundedOk hb (by exact hmem) hn
  case isFalse hc =>
    split at h
    · simp only [Except.ok.injEq] at h
      have h1 : (insert_new_part d pid pes
          (some (pes.pes_packet_len - pes.header.optional_header_len))).1 = d' := by
        rw [h]
      have hc' : (d.ignore_packet_header_length || pes.pes_packet_len == 0) = false := by
        cases hx : (d.ignore_packet_header_length || pes.pes_packet_len == 0) with
        | false => rfl
        | true => exact absurd hx hc
      have hP : pes.data.length ≤
          pes.pes_packet_len - pes.header.optional_header_len := by
        unfold Pes.fragmentOk at hfrag
        rw [hc'] at hfrag
        simpa using hfrag
      rw [← h1, insert_new_part_fst]
      apply boundedOk_of_forall
      intro kv hkv n hn
      rcases PesMap.mem_insert _ _ _ kv hkv with he | hmem
      · subst he
        simp only [Option.some.injEq] at hn
        simpa [← hn] using hP
      · exact le_of_boundedOk hb hmem hn
    · simp at h

theorem handle_raw_payload_boundedOk {d d' : PesPacketDecoder} {pid : Pid}
    {b : List Nat} {o : Option PesPacketV}
    (hb : d.boundedOk = true)
    (h : d.handle_raw_payload pid b = .ok (d', o)) :
    d'.boundedOk = true := by
  have hbRem : ∀ kv ∈ PesMap.remove d.pes_packets pid, ∀ n : Nat,
      kv.2.data_len = some n → kv.2.packet.data.length ≤ n := by
    intro kv hkv n hn
    exact le_of_boundedOk hb (PesMap.mem_remove _ _ kv hkv) hn
  unfold handle_raw_payload at h
  rcases hl : PesMap.lookup d.pes_packets pid with _ | part0 <;>
    rw [hl] at h <;> dsimp only at h
  · simp only [Except.ok.injEq, Prod.mk.injEq] at h
    rw [← h.1]
    exact hb
  · unfold handle_appended at h
    split at h
    · simp only [Except.ok.injEq, Prod.mk.injEq] at h
      rw [← h.1]
      exact boundedOk_of_forall hbRem
    · split at h
      case h_1 expected heq =>
        split at h
        · simp only [Except.ok.injEq, Prod.mk.injEq] at h
          rw [← h.1]
          exact boundedOk_of_forall hbRem
        case isFalse hgt =>
          simp only [Except.ok.injEq, Prod.mk.injEq] at h
          rw [← h.1]
          apply boundedOk_of_forall
          intro kv hkv n hn
          rcases PesMap.mem_insert _ _ _ kv hkv with he | hmem
          · subst he
            dsimp only at hn
            rw [heq] at hn
            simp only [Option.some.injEq] at hn
            subst hn
            simpa using Nat.le_of_not_lt (by simpa using hgt)
          · exact hbRem kv hmem n hn
      case h_2 heq =>
        simp only [Except.ok.injEq, Prod.mk.injEq] at h
        rw [← h.1]
        apply boundedOk_of_forall
        intro kv hkv n hn
        rcases PesMap.mem_insert _ _ _ kv hkv with he | hmem
        · subst he
          dsimp only at hn
          rw [heq] at hn
          simp at hn
        · exact hbRem kv hmem n hn

theorem process_ts_packet_boundedOk {d d' : PesPacketDecoder} {ts : TsPacket}
    {o : Option PesPacketV}
    (hb : d.boundedOk = true)
    (hfrag : ts.fragmentOk d.ignore_packet_header_length = true)
    (h : d.process_ts_packet ts = .ok (d', o)) :
    d'.boundedOk = true := by
  unfold process_ts_packet at h
  split at h
  · exact handle_eos_boundedOk hb h
  · split at h
    case h_1 p heq =>
      apply handle_pes_payload_boundedOk hb ?frag h
      unfold TsPacket.fragmentOk at hfrag
      rw [heq] at hfrag
      exact hfrag
    case h_2 => exact handle_raw_payload_boundedOk hb h
    case h_3 =>
      simp only [Except.ok.injEq, Prod.mk.injEq] at h
      rw [← h.1]
      exact hb

theorem flush_boundedOk {d d' : PesPacketDecoder} {o : Option PesPacketV}
    (hb : d.boundedOk = true) (h : d.flush = .ok (d', o)) :
    d'.boundedOk = true := by
  unfold flush at h
  split at h
  · exact handle_eos_boundedOk hb h
  · exact handle_eos_boundedOk (d := { d with eos := true }) hb h

theorem processAll_boundedOk :
    ∀ (pkts : List TsPacket) (d d' : PesPacketDecoder) (outs : List PesPacketV),
      d.boundedOk = true →
      (∀ ts ∈ pkts, ts.fragmentOk d.ignore_packet_header_length = true) →
      d.processAll pkts = .ok (d', outs) →
      d'.boundedOk = true := by
  intro pkts
  induction pkts with
  | nil =>
      intro d d' outs hb _ h
      unfold processAll at h
      simp only [Except.ok.injEq, Prod.mk.injEq] at h
      rw [← h.1]
      exact hb
  | cons ts rest ih =>
      intro d d' outs hb hfrag h
      unfold processAll at h
      rcases h1 : d.process_ts_packet ts with e | ⟨d1, o1⟩ <;> rw [h1] at h
      · simp at h
      · dsimp only at h
        rcases h2 : d1.processAll rest with e | ⟨d2, outs2⟩ <;> rw [h2] at h
        · simp at h
        · dsimp only at h
          simp only [Except.ok.injEq, Prod.mk.injEq] at h
          have hb1 := process_ts_packet_boundedOk hb
            (hfrag ts (List.mem_cons_self _ _)) h1
          have hflag := congrArg PesPacketDecoder.ignore_packet_header_length
            (process_ts_packet_shape h1)
          have hfrag1 : ∀ p ∈ rest, p.fragmentOk d1.ignore_packet_header_length = true := by
            intro p hp
            rw [hflag]
            exact hfrag p (List.mem_cons_of_mem _ hp)
          have := ih d1 d2 outs2 hb1 hfrag1 h2
          rw [← h.1]
          exact this

/-- A raw append that would push a bounded partial past its declared length
drops the partial: it is removed from the map and nothing is emitted. -/
theorem handle_raw_payload_drop_on_overflow {d : PesPacketDecoder} {pid : Pid}
    {b : List Nat} {pp : PartialPesPacket} {n : Nat}
    (hl : PesMap.lookup d.pes_packets pid = some pp)
    (hn : pp.data_len = some n)
    (hover : pp.packet.data.length + b.length > n) :
    d.handle_raw_payload pid b =
      .ok ({ d with pes_packets := PesMap.remove d.pes_packets pid }, none) := by
  have hlen : (pp.packet.data ++ b).length = pp.packet.data.length + b.length :=
    List.length_append _ _
  have hne : ¬(some (pp.packet.data ++ b).length = some n) := by
    rw [hlen]
    intro hcontra
    simp only [Option.some.injEq] at hcontra
    omega
  have hgt : (pp.packet.data ++ b).length > n := by
    rw [hlen]
    omega
  unfold handle_raw_payload
  rw [hl]
  dsimp only
  unfold handle_appended
  dsimp only
  rw [hn, if_neg hne]
  dsimp only
  rw [if_pos hgt]

end PesPacketDecoder

/-! ## Helper lemmas on the PES packet reader's own handlers -/

namespace PesPacketReader

theorem r_handle_eos_shape {r r' : PesPacketReader} {o : Option PesPacketV}
    (h : r.handle_eos = .ok (r', o)) :
    r' = { r with pes_packets := r'.pes_packets } := by
  unfold handle_eos at h
  split at h
  · simp only [Except.ok.injEq, Prod.mk.injEq] at h
    rw [← h.1]
  · split at h
    · simp only [Except.ok.injEq, Prod.mk.injEq] at h
      rw [← h.1]
    · simp at h

theorem r_insert_new_part_fst (r : PesPacketReader) (pid : Pid) (pes : Pes)
    (dl : Option Nat) :
    (insert_new_part r pid pes dl).1 =
      { r with
        pes_packets :=
          (PesMap.insert r.pes_packets pid
            { packet := { header := pes.header, data := pes.data },
              data_len := dl }).1 } := rfl

theorem r_handle_pes_payload_shape {r r' : PesPacketReader} {pid : Pid}
    {pes : Pes} {o : Option PesPacketV}
    (h : r.handle_pes_payload pid pes = .ok (r', o)) :
    r' = { r with pes_packets := r'.pes_packets } := by
  unfold handle_pes_payload at h
  split at h
  · simp only [Except.ok.injEq] at h
    have h1 : (insert_new_part r pid pes none).1 = r' := congrArg Prod.fst h
    rw [← h1]
    rfl
  · split at h
    · simp only [Except.ok.injEq] at h
      have h1 : (insert_new_part r pid pes
          (some (pes.pes_packet_len - pes.header.optional_header_len))).1 = r' :=
        congrArg Prod.fst h
      rw [← h1]
      rfl
    · simp at h

theorem r_handle_appended_shape {r r' : PesPacketReader} {pid : Pid}
    {part : PartialPesPacket} {o : Option PesPacketV}
    (h : r.handle_appended pid part = .ok (r', o)) :
    r' = { r with pes_packets := r'.pes_packets } := by
  unfold handle_appended at h
  split at h
  · simp only [Except.ok.injEq, Prod.mk.injEq] at h
    rw [← h.1]
  · split at h
    · split at h
      · simp only [Except.ok.injEq, Prod.mk.injEq] at h
        rw [← h.1]
      · simp only [Except.ok.injEq, Prod.mk.injEq] at h
        rw [← h.1]
    · simp only [Except.ok.injEq, Prod.mk.injEq] at h
      rw [← h.1]

theorem r_handle_raw_payload_shape {r r' : PesPacketReader} {pid : Pid}
    {b : List Nat} {o : Option PesPacketV}
    (h : r.handle_raw_payload pid b = .ok (r', o)) :
    r' = { r with pes_packets := r'.pes_packets } := by
  unfold handle_raw_payload at h
  split at h
  · simp only [Except.ok.injEq, Prod.mk.injEq] at h
    rw [← h.1]
  · have h2 := r_handle_appended_shape h
    exact h2

theorem dispatch_shape {r r' : PesPacketReader} {ts : TsPacket}
    {rest : List TsPacket} {o : Option PesPacketV}
    (h : (match ts.payload with
          | some (.pes p) =>
              handle_pes_payload { r with ts_packets := rest } ts.header.pid p
          | some (.raw b) =>
              handle_raw_payload { r with ts_packets := rest } ts.header.pid b
          | _ => .ok ({ r with ts_packets := rest }, none)) = .ok (r', o)) :
    r' = { r with ts_packets := rest, pes_packets := r'.pes_packets } := by
  cases hpay : ts.payload with
  | none =>
      rw [hpay] at h
      simp only [Except.ok.injEq, Prod.mk.injEq] at h
      rw [← h.1]
  | some pl =>
      cases pl with
      | pes p =>
          rw [hpay] at h
          have hs := r_handle_pes_payload_shape h
          exact hs
      | raw b =>
          rw [hpay] at h
          have hs := r_handle_raw_payload_shape h
          exact hs
      | pat l =>
          rw [hpay] at h
          simp only [Except.ok.injEq, Prod.mk.injEq] at h
          rw [← h.1]
      | pmt l =>
          rw [hpay] at h
          simp only [Except.ok.injEq, Prod.mk.injEq] at h
          rw [← h.1]
      | null =>
          rw [hpay] at h
          simp only [Except.ok.injEq, Prod.mk.injEq] at h
          rw [← h.1]

/-- The packet-pulling loop touches only `ts_packets`, `pes_packets` and
`eos`: the peek slot, mark flag and back-buffer pass through unchanged. -/
theorem read_loop_frame :
    ∀ (pkts : List TsPacket) (r r' : PesPacketReader) (o : Option PesPacketV),
      read_loop pkts r = .ok (r', o) →
      r'.peeked_packet = r.peeked_packet ∧ r'.is_marked = r.is_marked ∧
        r'.back_buffer = r.back_buffer := by
  intro pkts
  induction pkts with
  | nil =>
      intro r r' o h
      simp only [read_loop] at h
      have hs := r_handle_eos_shape h
      rw [hs]
      exact ⟨rfl, rfl, rfl⟩
  | cons ts rest ih =>
      intro r r' o h
      simp only [read_loop] at h
      rcases hd : (match ts.payload with
          | some (.pes p) =>
              handle_pes_payload { r with ts_packets := rest } ts.header.pid p
          | some (.raw b) =>
              handle_raw_payload { r with ts_packets := rest } ts.header.pid b
          | _ => .ok ({ r with ts_packets := rest }, none)) with e | ⟨r1, o1⟩
      · try rw [hd] at h
        try dsimp only at h
        exact Except.noConfusion h
      · try rw [hd] at h
        try dsimp only at h
        have hs := dispatch_shape hd
        cases o1 with
        | some p =>
            simp only [Except.ok.injEq, Prod.mk.injEq] at h
            rw [← h.1, hs]
            exact ⟨rfl, rfl, rfl⟩
        | none =>
            have hf := ih r1 r' o h
            rw [hs] at hf
            exact hf

/-- `read_next_pes_packet` touches only `ts_packets`, `pes_packets` and
`eos`. -/
theorem read_next_pes_packet_frame {r r' : PesPacketReader}
    {o : Option PesPacketV} (h : r.read_next_pes_packet = .ok (r', o)) :
    r'.peeked_packet = r.peeked_packet ∧ r'.is_marked = r.is_marked ∧
      r'.back_buffer = r.back_buffer := by
  unfold read_next_pes_packet at h
  split at h
  · have hs := r_handle_eos_shape h
    rw [hs]
    exact ⟨rfl, rfl, rfl⟩
  · exact read_loop_frame r.ts_packets r r' o h

/-- `push_if_marked` on a successful read of a marked state appends the
result to the back-buffer. -/
theorem push_if_marked_ok_true {a1 : Option PesPacketV} {a2 : List TsPacket}
    {a3 : PesMap} {a4 : Bool} {a6 : List PesPacketV} {a7 : Bool}
    {o1 : Option PesPacketV} :
    push_if_marked (.ok (⟨a1, a2, a3, a4, true, a6, a7⟩, o1)) =
      .ok (⟨a1, a2, a3, a4, true, a6 ++ o1.toList, a7⟩, o1) := by
  unfold push_if_marked
  cases o1 <;> simp

/-- `push_if_marked` on a successful read of an unmarked state is the
identity. -/
theorem push_if_marked_ok_false {a1 : Option PesPacketV} {a2 : List TsPacket}
    {a3 : PesMap} {a4 : Bool} {a6 : List PesPacketV} {a7 : Bool}
    {o1 : Option PesPacketV} :
    push_if_marked (.ok (⟨a1, a2, a3, a4, false, a6, a7⟩, o1)) =
      .ok (⟨a1, a2, a3, a4, false, a6, a7⟩, o1) := by
  unfold push_if_marked
  simp

/-- `push_if_marked` passes errors through. -/
theorem push_if_marked_error {e : ErrorKind} :
    push_if_marked (.error e) = .error e := rfl

/-- While marked, every successful `read_pes_packet` appends its `Some`
result to the back-buffer (and nothing else happens to the buffer), stays
marked, and leaves the peek slot empty. -/
theorem read_pes_packet_marked {r r' : PesPacketReader} {o : Option PesPacketV}
    (hmk : r.is_marked = true) (h : r.read_pes_packet = .ok (r', o)) :
    r'.back_buffer = r.back_buffer ++ o.toList ∧ r'.is_marked = true ∧
      r'.peeked_packet = none := by
  rcases r with ⟨a1, a2, a3, a4, a5, a6, a7⟩
  dsimp only at hmk ⊢
  subst hmk
  unfold read_pes_packet at h
  cases a1 with
  | some p =>
      dsimp only at h
      rw [push_if_marked_ok_true] at h
      simp only [Except.ok.injEq, Prod.mk.injEq] at h
      rw [← h.1, ← h.2]
      exact ⟨rfl, rfl, rfl⟩
  | none =>
      dsimp only at h
      have key : ∀ (bb : List PesPacketV),
          push_if_marked (PesPacketReader.read_next_pes_packet
            ⟨none, a2, a3, a4, true, bb, a7⟩) = .ok (r', o) →
          r'.back_buffer = bb ++ o.toList ∧ r'.is_marked = true ∧
            r'.peeked_packet = none := by
        intro bb h'
        rcases hrn : PesPacketReader.read_next_pes_packet
            ⟨none, a2, a3, a4, true, bb, a7⟩ with e | ⟨r1, o1⟩ <;>
          rw [hrn] at h'
        · rw [push_if_marked_error] at h'
          exact Except.noConfusion h'
        · obtain ⟨hp1, hm1, hb1⟩ := read_next_pes_packet_frame hrn
          dsimp only at hp1 hm1 hb1
          rcases r1 with ⟨b1, b2, b3, b4, b5, b6, b7⟩
          dsimp only at hp1 hm1 hb1
          subst hp1
          subst hm1
          subst hb1
          rw [push_if_marked_ok_true] at h'
          simp only [Except.ok.injEq, Prod.mk.injEq] at h'
          rw [← h'.1, ← h'.2]
          exact ⟨rfl, rfl, rfl⟩
      cases a6 with
      | nil =>
          refine key [] ?_
          dsimp only at h
          exact h
      | cons q qs =>
          refine key (q :: qs) ?_
          dsimp only at h
          exact h

/-- Iterating `read_pes_packet` while marked appends exactly the `Some`
results, in order, to the back-buffer. -/
theorem readN_marked :
    ∀ (k : Nat) (r r2 : PesPacketReader) (outs : List (Option PesPacketV)),
      r.is_marked = true → readN k r = .ok (r2, outs) →
      r2.back_buffer = r.back_buffer ++ outs.filterMap id ∧
        r2.is_marked = true := by
  intro k
  induction k with
  | zero =>
      intro r r2 outs hmk h
      simp only [readN] at h
      simp only [Except.ok.injEq, Prod.mk.injEq] at h
      rw [← h.1, ← h.2]
      simp [hmk]
  | succ n ih =>
      intro r r2 outs hmk h
      simp only [readN] at h
      rcases h1 : r.read_pes_packet with e | ⟨r1, o1⟩ <;> rw [h1] at h <;>
        (try dsimp only at h)
      · exact Except.noConfusion h
      · rcases h2 : readN n r1 with e | ⟨r2', outs'⟩ <;> rw [h2] at h <;>
          (try dsimp only at h)
        · exact Except.noConfusion h
        · simp only [Except.ok.injEq, Prod.mk.injEq] at h
          obtain ⟨hb1, hm1, _⟩ := read_pes_packet_marked hmk h1
          obtain ⟨hb2, hm2⟩ := ih r1 r2' outs' hm1 h2
          rw [← h.1, ← h.2]
          constructor
          · rw [hb2, hb1]
            cases o1 <;> simp
          · exact hm2

/-- Reading while not marked with an empty peek slot pops the front of a
non-empty back-buffer, touching nothing else. -/
theorem read_pes_packet_unmarked_pop {r : PesPacketReader} {p : PesPacketV}
    {rest : List PesPacketV}
    (hmk : r.is_marked = false) (hpk : r.peeked_packet = none)
    (hbb : r.back_buffer = p :: rest) :
    r.read_pes_packet = .ok ({ r with back_buffer := rest }, some p) := by
  rcases r with ⟨a1, a2, a3, a4, a5, a6, a7⟩
  dsimp only at hmk hpk hbb ⊢
  subst hmk
  subst hpk
  subst hbb
  unfold read_pes_packet
  dsimp only
  rw [push_if_marked_ok_false]

/-- Draining the back-buffer: with the reader unmarked and nothing peeked,
`back_buffer.length` reads return exactly the buffered packets in order and
empty the buffer, touching nothing else (in particular no TS packet is
pulled from the underlying stream). -/
theorem readN_unmarked_drain :
    ∀ (ps : List PesPacketV) (r : PesPacketReader),
      r.is_marked = false → r.peeked_packet = none → r.back_buffer = ps →
      readN ps.length r = .ok ({ r with back_buffer := [] }, ps.map some) := by
  intro ps
  induction ps with
  | nil =>
      intro r hmk hpk hbb
      simp only [List.length_nil, readN, List.map_nil]
      rcases r with ⟨a, b, c, d, e, f, g⟩
      dsimp only at hbb ⊢
      rw [hbb]
  | cons p rest ih =>
      intro r hmk hpk hbb
      simp only [List.length_cons, readN]
      rw [read_pes_packet_unmarked_pop hmk hpk hbb]
      dsimp only
      rw [ih { r with back_buffer := rest } hmk hpk rfl]
      simp

/-- `readN` returns as many results as reads requested. -/
theorem readN_length :
    ∀ (k : Nat) (r r2 : PesPacketReader) (outs : List (Option PesPacketV)),
      readN k r = .ok (r2, outs) → outs.length = k := by
  intro k
  induction k with
  | zero =>
      intro r r2 outs h
      simp only [readN] at h
      simp only [Except.ok.injEq, Prod.mk.injEq] at h
      rw [← h.2]
      rfl
  | succ n ih =>
      intro r r2 outs h
      simp only [readN] at h
      rcases h1 : r.read_pes_packet with e | ⟨r1, o1⟩ <;> rw [h1] at h <;>
        (try dsimp only at h)
      · exact Except.noConfusion h
      · rcases h2 : readN n r1 with e | ⟨r2', outs'⟩ <;> rw [h2] at h <;>
          (try dsimp only at h)
        · exact Except.noConfusion h
        · simp only [Except.ok.injEq, Prod.mk.injEq] at h
          rw [← h.2]
          simp [ih r1 r2' outs' h2]

/-- Characterization of a successful `mark`: the reader was unmarked, the
flag is set, and a peeked packet (if any) is copied onto the back-buffer. -/
theorem mark_ok {r r1 : PesPacketReader} (h : r.mark = .ok r1) :
    r.is_marked = false ∧
      r1 = { r with is_marked := true, back_buffer := r.back_buffer ++ r.peeked_packet.toList } := by
  unfold mark at h
  split at h
  · exact Except.noConfusion h
  case isFalse hm =>
    have hm' : r.is_marked = false := by
      cases hval : r.is_marked
      · rfl
      · exact absurd hval hm
    refine ⟨hm', ?_⟩
    cases hpk : r.peeked_packet with
    | some p =>
        rw [hpk] at h
        dsimp only at h
        simp only [Except.ok.injEq] at h
        rw [← h]
        rfl
    | none =>
        rw [hpk] at h
        dsimp only at h
        simp only [Except.ok.injEq] at h
        rw [← h]
        simp

/-- Characterization of a successful `reset`: the reader was marked; the
flag and the peek slot are cleared, everything else untouched. -/
theorem reset_ok {r r3 : PesPacketReader} (h : r.reset = .ok r3) :
    r.is_marked = true ∧
      r3 = { r with is_marked := false, peeked_packet := none } := by
  unfold reset at h
  split at h
  case isTrue hm =>
    simp only [Except.ok.injEq] at h
    exact ⟨hm, h.symm⟩
  · exact Except.noConfusion h

end PesPacketReader

/-- Stripping the `some`s that `map some` added. -/
theorem filterMap_id_map_some (ps : List PesPacketV) :
    (ps.map some).filterMap id = ps := by
  induction ps with
  | nil => rfl
  | cons p rest ih => simp [ih]

/-! ## Equivalence of the reader's and the decoder's reassembly handlers -/

theorem handle_eos_equiv {r : PesPacketReader} {d : PesPacketDecoder}
    (hm : r.pes_packets = d.pes_packets) (he : r.eos = d.eos)
    (hig : r.ignore_packet_header_length = d.ignore_packet_header_length) :
    rproj r.handle_eos = dproj d.handle_eos := by
  unfold PesPacketReader.handle_eos PesPacketDecoder.handle_eos
  rw [hm]
  rcases hm2 : d.pes_packets with _ | ⟨⟨pid0, pp0⟩, rest⟩
  · dsimp only [rproj, dproj]
    rw [hm, hm2, he, hig]
  · dsimp only
    split
    · dsimp only [rproj, dproj]
      rw [he, hig]
    · rfl

theorem handle_pes_payload_equiv {r : PesPacketReader} {d : PesPacketDecoder}
    (hm : r.pes_packets = d.pes_packets) (he : r.eos = d.eos)
    (hig : r.ignore_packet_header_length = d.ignore_packet_header_length)
    (pid : Pid) (pes : Pes) :
    rproj (r.handle_pes_payload pid pes) =
      dproj (d.handle_pes_payload pid pes) := by
  unfold PesPacketReader.handle_pes_payload PesPacketDecoder.handle_pes_payload
    PesPacketReader.insert_new_part PesPacketDecoder.insert_new_part
  rw [hig, hm]
  split
  · dsimp only [rproj, dproj]
    rw [he]
  · split
    · dsimp only [rproj, dproj]
      rw [he]
    · rfl

theorem handle_raw_payload_equiv {r : PesPacketReader} {d : PesPacketDecoder}
    (hm : r.pes_packets = d.pes_packets) (he : r.eos = d.eos)
    (hig : r.ignore_packet_header_length = d.ignore_packet_header_length)
    (pid : Pid) (b : List Nat) :
    rproj (r.handle_raw_payload pid b) =
      dproj (d.handle_raw_payload pid b) := by
  unfold PesPacketReader.handle_raw_payload PesPacketDecoder.handle_raw_payload
  rw [hm]
  rcases hl : PesMap.lookup d.pes_packets pid with _ | part0
  · dsimp only [rproj, dproj]
    rw [hm, he, hig]
  · dsimp only
    unfold PesPacketReader.handle_appended PesPacketDecoder.handle_appended
    dsimp only
    split
    · dsimp only [rproj, dproj]
      rw [he, hig]
    · split
      · split
        · dsimp only [rproj, dproj]
          rw [he, hig]
        · dsimp only [rproj, dproj]
          rw [he, hig]
      · dsimp only [rproj, dproj]
        rw [he, hig]

theorem read_loop_equiv :
    ∀ (pkts : List TsPacket) (r : PesPacketReader) (d : PesPacketDecoder),
      r.pes_packets = d.pes_packets → r.eos = d.eos →
      r.ignore_packet_header_length = d.ignore_packet_header_length →
      rproj (PesPacketReader.read_loop pkts r) =
        dproj (PesPacketDecoder.read_loop pkts d) := by
  intro pkts
  induction pkts with
  | nil =>
      intro r d hm he hig
      simp only [PesPacketReader.read_loop, PesPacketDecoder.read_loop]
      exact handle_eos_equiv (r := { r with ts_packets := [], eos := true })
        (d := { d with eos := true }) hm rfl hig
  | cons ts rest ih =>
      intro r d hm he hig
      have step :
          rproj ((match ts.payload with
                  | some (.pes p) =>
                      PesPacketReader.handle_pes_payload
                        { r with ts_packets := rest } ts.header.pid p
                  | some (.raw b) =>
                      PesPacketReader.handle_raw_payload
                        { r with ts_packets := rest } ts.header.pid b
                  | _ => .ok ({ r with ts_packets := rest }, none)))
            = dproj ((match ts.payload with
                  | some (.pes p) =>
                      PesPacketDecoder.handle_pes_payload d ts.header.pid p
                  | some (.raw b) =>
                      PesPacketDecoder.handle_raw_payload d ts.header.pid b
                  | _ => .ok (d, none))) := by
        cases hpay : ts.payload with
        | none =>
            dsimp only [rproj, dproj]
            rw [hm, he, hig]
        | some pl =>
            cases pl with
            | pes p =>
                dsimp only
                exact handle_pes_payload_equiv
                  (r := { r with ts_packets := rest }) (d := d)
                  hm he hig ts.header.pid p
            | raw b =>
                dsimp only
                exact handle_raw_payload_equiv
                  (r := { r with ts_packets := rest }) (d := d)
                  hm he hig ts.header.pid b
            | pat l =>
                dsimp only [rproj, dproj]
                rw [hm, he, hig]
            | pmt l =>
                dsimp only [rproj, dproj]
                rw [hm, he, hig]
            | null =>
                dsimp only [rproj, dproj]
                rw [hm, he, hig]
      simp only [PesPacketReader.read_loop, PesPacketDecoder.read_loop]
      rcases hx : (match ts.payload with
                  | some (.pes p) =>
                      PesPacketReader.handle_pes_payload
                        { r with ts_packets := rest } ts.header.pid p
                  | some (.raw b) =>
                      PesPacketReader.handle_raw_payload
                        { r with ts_packets := rest } ts.header.pid b
                  | _ => .ok ({ r with ts_packets := rest }, none)) with
        e | ⟨r', o⟩
      · rcases hy : (match ts.payload with
                  | some (.pes p) =>
                      PesPacketDecoder.handle_pes_payload d ts.header.pid p
                  | some (.raw b) =>
                      PesPacketDecoder.handle_raw_payload d ts.header.pid b
                  | _ => .ok (d, none)) with e2 | ⟨d', o2⟩
        · try rw [hx, hy] at step
          rw [hx, hy]
          try dsimp only [rproj, dproj] at step
          try simp only [Except.error.injEq] at step
          dsimp only [rproj, dproj]
          rw [step]
        · try rw [hx, hy] at step
          try dsimp only [rproj, dproj] at step
          exact Except.noConfusion step
      · rcases hy : (match ts.payload with
                  | some (.pes p) =>
                      PesPacketDecoder.handle_pes_payload d ts.header.pid p
                  | some (.raw b) =>
                      PesPacketDecoder.handle_raw_payload d ts.header.pid b
                  | _ => .ok (d, none)) with e2 | ⟨d', o2⟩
        · try rw [hx, hy] at step
          try dsimp only [rproj, dproj] at step
          exact Except.noConfusion step
        · try rw [hx, hy] at step
          rw [hx, hy]
          try dsimp only [rproj, dproj] at step
          simp only [Except.ok.injEq, Prod.mk.injEq] at step
          obtain ⟨⟨hmp, hep, higp⟩, hop⟩ := step
          cases o with
          | some p0 =>
              cases o2 with
              | some q0 =>
                  dsimp only [rproj, dproj]
                  rw [hmp, hep, higp, hop]
              | none => exact Option.noConfusion hop
          | none =>
              cases o2 with
              | some q0 => exact Option.noConfusion hop
              | none =>
                  dsimp only
                  exact ih r' d' hmp hep higp
          

/-! ## Helper lemmas on the TS packet reader -/

/-- A successful parse never downgrades a `Pes`-classified PID unless the
packet is a PAT listing that PID among its program_map PIDs. -/
theorem parseWire_pes_preserved {w : WirePacket} {pids pids' : PidMap}
    {pkt : TsPacket} {p : Pid}
    (h : parseWire w pids = .ok (pids', pkt))
    (hp : PidMap.lookup pids p = some .pes)
    (hpat : p ∉ w.patPids) :
    PidMap.lookup pids' p = some .pes := by
  unfold parseWire at h
  split at h
  · simp at h
  case isFalse hsync =>
    split at h
    case isTrue hpl =>
      split at h
      case isTrue hpid =>
        rcases hp2 : w.asPat with _ | table <;> rw [hp2] at h <;>
          (try dsimp only at h)
        · simp at h
        · simp only [Except.ok.injEq, Prod.mk.injEq] at h
          rw [← h.1]
          have htab : p ∉ table := by
            unfold WirePacket.patPids at hpat
            rw [if_pos ⟨not_not.mp hsync, hpid, hpl⟩, hp2] at hpat
            simpa using hpat
          rw [PidMap.lookup_foldl_pmt_not_mem table p htab pids]
          exact hp
      case isFalse =>
        split at h
        · simp only [Except.ok.injEq, Prod.mk.injEq] at h
          rw [← h.1]
          exact hp
        · split at h
          · simp only [Except.ok.injEq, Prod.mk.injEq] at h
            rw [← h.1]
            exact hp
          · rcases hk : PidMap.lookup pids w.pid with _ | k <;>
              rw [hk] at h <;> (try dsimp only at h)
            · simp only [Except.ok.injEq, Prod.mk.injEq] at h
              rw [← h.1]
              exact hp
            · cases k with
              | pmt =>
                  rcases hm : w.asPmt with _ | es <;> rw [hm] at h <;>
                    (try dsimp only at h)
                  · simp at h
                  · simp only [Except.ok.injEq, Prod.mk.injEq] at h
                    rw [← h.1]
                    exact PidMap.lookup_foldl_pes es p pids hp
              | pes =>
                  dsimp only at h
                  split at h
                  · rcases hs : w.asPes with _ | q <;> rw [hs] at h <;>
                      (try dsimp only at h)
                    · simp at h
                    · simp only [Except.ok.injEq, Prod.mk.injEq] at h
                      rw [← h.1]
                      exact hp
                  · simp only [Except.ok.injEq, Prod.mk.injEq] at h
                    rw [← h.1]
                    exact hp
    case isFalse =>
      simp only [Except.ok.injEq, Prod.mk.injEq] at h
      rw [← h.1]
      exact hp

/-- A failing head event is skipped by the retry loop. -/
theorem getAvailLoop_cons_error (e : SourceEvent) (rest : List SourceEvent)
    (pids : PidMap) {err : ErrorKind} (he : readEvent e pids = .error err) :
    TsPacketReader.getAvailLoop (e :: rest) pids =
      TsPacketReader.getAvailLoop rest pids := by
  simp only [TsPacketReader.getAvailLoop, he]

/-- `getAvailLoop` never downgrades a `Pes`-classified PID unless some
packet in the remaining source is a PAT listing it. -/
theorem getAvailLoop_pes_preserved :
    ∀ (evs : List SourceEvent) (pids : PidMap) (p : Pid),
      PidMap.lookup pids p = some .pes →
      (∀ w : WirePacket, SourceEvent.packet w ∈ evs → p ∉ w.patPids) →
      PidMap.lookup (TsPacketReader.getAvailLoop evs pids).2.1 p = some .pes := by
  intro evs
  induction evs with
  | nil =>
      intro pids p hp _
      exact hp
  | cons e rest ih =>
      intro pids p hp hpat
      unfold TsPacketReader.getAvailLoop
      rcases he : readEvent e pids with err | ⟨pids', pkt⟩ <;> (try dsimp only)
      · exact ih pids p hp fun w hw => hpat w (List.mem_cons_of_mem _ hw)
      · cases e with
        | ioFailure => simp [readEvent] at he
        | packet w =>
            unfold readEvent at he
            rcases hpw : parseWire w pids with err2 | ⟨pids2, pkt2⟩
            · simp only [hpw] at he
              exact Except.noConfusion he
            · simp only [hpw] at he
              simp only [Except.ok.injEq, Prod.mk.injEq] at he
              rw [← he.1]
              exact parseWire_pes_preserved hpw hp
                (hpat w (List.mem_cons_self _ _))

end Mpeg2Ts

namespace Mpeg2Ts

/-! ## Claims C1, C6, C8, C10 -/

/-- C1 (counterexample): a bounded PES on PID 1 (declared length 10,
optional header length 3, hence expected body 7) delivers only one byte
before a new PES arrives on the same PID; the evicted packet is emitted with
body length 1, not 7.  So a PES packet returned with a bounded declared
length (ignore flag unset, `pes_packet_len = 10 ≠ 0`) need not satisfy
`body.len() = pes_packet_len − optional_header_len`. -/
theorem claim1_counterexample :
    PesPacketDecoder.processAll (PesPacketDecoder.new none)
        [pesTsPacket 1 10 [9], pesTsPacket 1 10 [8]]
      = .ok ({ pes_packets :=
                 [(1, { packet := samplePesPacket [8], data_len := some 7 })],
               ignore_packet_header_length := false, eos := false },
             [samplePesPacket [9]])
    ∧ (PesPacketDecoder.new none).ignore_packet_header_length = false
    ∧ (10 : Nat) - sampleHeader.optional_header_len = 7
    ∧ (samplePesPacket [9]).data.length = 1
    ∧ (1 : Nat) ≠ 7 := by
  refine ⟨by decide, by decide, by decide, by decide, by decide⟩

/-- C1 (amended): every PES packet the decoder returns through the
raw-payload completion path or through `flush` from a bounded in-flight
partial has body length exactly the partial's declared `data_len`, which at
creation equals `pes_packet_len − optional_header_len`; only a packet
returned by evicting a prior in-flight partial when a new PES arrives on the
same PID may be shorter (it is emitted as-is). -/
theorem claim1_amended :
    (∀ (d d' : PesPacketDecoder) (pid : Pid) (pes : Pes) (o : Option PesPacketV),
        d.ignore_packet_header_length = false →
        pes.pes_packet_len ≠ 0 →
        d.handle_pes_payload pid pes = .ok (d', o) →
        PesMap.lookup d'.pes_packets pid =
          some { packet := { header := pes.header, data := pes.data },
                 data_len :=
                   some (pes.pes_packet_len - pes.header.optional_header_len) })
    ∧ (∀ (d d' : PesPacketDecoder) (ts : TsPacket) (b : List Nat)
          (p : PesPacketV) (pp : PartialPesPacket) (n : Nat),
        d.eos = false →
        ts.payload = some (.raw b) →
        d.process_ts_packet ts = .ok (d', some p) →
        PesMap.lookup d.pes_packets ts.header.pid = some pp →
        pp.data_len = some n →
        p.data.length = n)
    ∧ (∀ (d d' : PesPacketDecoder) (p : PesPacketV) (pid : Pid)
          (pp : PartialPesPacket) (rest : PesMap) (n : Nat),
        d.flush = .ok (d', some p) →
        d.pes_packets = (pid, pp) :: rest →
        pp.data_len = some n →
        p.data.length = n) := by
  refine ⟨?_, ?_, ?_⟩
  · intro d d' pid pes o hig hlen h
    exact PesPacketDecoder.handle_pes_payload_lookup_bounded hig hlen h
  · intro d d' ts b p pp n heos hts h hl hn
    unfold PesPacketDecoder.process_ts_packet at h
    rw [if_neg (by rw [heos]; simp)] at h
    rw [hts] at h
    dsimp only at h
    exact (PesPacketDecoder.handle_raw_payload_emit_exact h hl hn).1
  · intro d d' p pid pp rest n h hm hn
    exact (PesPacketDecoder.flush_emit_exact h hm hn).1

/-- C1 (witness): the raw-completion conjunct of `claim1_amended`
instantiated on a decoder holding a bounded partial (2 of 3 bytes) that a
3rd raw byte completes. -/
theorem claim1_amended_witness :
    PesPacketDecoder.process_ts_packet
        { pes_packets := [(1, { packet := samplePesPacket [1, 2],
                                data_len := some 3 })],
          ignore_packet_header_length := false, eos := false }
        (rawTsPacket 1 [3])
      = .ok ({ pes_packets := [], ignore_packet_header_length := false,
               eos := false },
             some (samplePesPacket [1, 2, 3]))
    ∧ (samplePesPacket [1, 2, 3]).data.length = 3 :=
  ⟨by decide,
   claim1_amended.2.1
     { pes_packets := [(1, { packet := samplePesPacket [1, 2],
                             data_len := some 3 })],
       ignore_packet_header_length := false, eos := false }
     { pes_packets := [], ignore_packet_header_length := false, eos := false }
     (rawTsPacket 1 [3]) [3] (samplePesPacket [1, 2, 3])
     { packet := samplePesPacket [1, 2], data_len := some 3 } 3
     (by decide) (by decide) (by decide) (by decide) (by decide)⟩

/-- C6 (counterexample): a single PES payload whose first fragment (8 bytes)
already exceeds its declared body length (10 − 3 = 7) is stored as-is, so
the decoder reaches a state whose map holds a partial with
`data_len = some 7` and 8 accumulated bytes — the claimed invariant fails. -/
theorem claim6_counterexample :
    PesPacketDecoder.process_ts_packet (PesPacketDecoder.new none)
        (pesTsPacket 1 10 [0, 1, 2, 3, 4, 5, 6, 7])
      = .ok ({ pes_packets :=
                 [(1, { packet := samplePesPacket [0, 1, 2, 3, 4, 5, 6, 7],
                        data_len := some 7 })],
               ignore_packet_header_length := false, eos := false }, none)
    ∧ (samplePesPacket [0, 1, 2, 3, 4, 5, 6, 7]).data.length = 8
    ∧ PesPacketDecoder.boundedOk
        { pes_packets :=
            [(1, { packet := samplePesPacket [0, 1, 2, 3, 4, 5, 6, 7],
                   data_len := some 7 })],
          ignore_packet_header_length := false, eos := false } = false := by
  refine ⟨by decide, by decide, by decide⟩

/-- C6 (amended): the bound `data.length ≤ data_len` on stored partials is
preserved by every operation, and holds in every state reachable from a
fresh decoder, provided each PES payload's initial fragment does not already
exceed its declared length (the counterexample shows it can be violated at
creation otherwise); a raw append that would exceed the bound drops the
partial from the map with nothing emitted. -/
theorem claim6_amended :
    (∀ (d d' : PesPacketDecoder) (ts : TsPacket) (o : Option PesPacketV),
        d.boundedOk = true →
        ts.fragmentOk d.ignore_packet_header_length = true →
        d.process_ts_packet ts = .ok (d', o) →
        d'.boundedOk = true)
    ∧ (∀ (d d' : PesPacketDecoder) (o : Option PesPacketV),
        d.boundedOk = true →
        d.flush = .ok (d', o) →
        d'.boundedOk = true)
    ∧ (∀ (d : PesPacketDecoder) (ts : TsPacket) (b : List Nat)
          (pp : PartialPesPacket) (n : Nat),
        d.eos = false →
        ts.payload = some (.raw b) →
        PesMap.lookup d.pes_packets ts.header.pid = some pp →
        pp.data_len = some n →
        pp.packet.data.length + b.length > n →
        d.process_ts_packet ts =
          .ok ({ d with pes_packets :=
                   PesMap.remove d.pes_packets ts.header.pid }, none))
    ∧ (∀ (envVar : Option (List Char)) (pkts : List TsPacket)
          (d' : PesPacketDecoder) (outs : List PesPacketV),
        (∀ ts ∈ pkts,
          ts.fragmentOk
            (PesPacketDecoder.new envVar).ignore_packet_header_length = true) →
        (PesPacketDecoder.new envVar).processAll pkts = .ok (d', outs) →
        d'.boundedOk = true) := by
  refine ⟨?_, ?_, ?_, ?_⟩
  · intro d d' ts o hb hfrag h
    exact PesPacketDecoder.process_ts_packet_boundedOk hb hfrag h
  · intro d d' o hb h
    exact PesPacketDecoder.flush_boundedOk hb h
  · intro d ts b pp n heos hts hl hn hover
    unfold PesPacketDecoder.process_ts_packet
    rw [if_neg (by rw [heos]; simp)]
    rw [hts]
    dsimp only
    exact PesPacketDecoder.handle_raw_payload_drop_on_overflow hl hn hover
  · intro envVar pkts d' outs hfrag h
    exact PesPacketDecoder.processAll_boundedOk pkts _ d' outs (by rfl) hfrag h

/-- C6 (witness): `claim6_amended` applied concretely — the overflow
conjunct on a partial holding 2 of 3 bytes that receives 2 more raw bytes
(dropping it), and the reachability conjunct on the two-packet stream of
scenario S4 in miniature. -/
theorem claim6_amended_witness :
    PesPacketDecoder.process_ts_packet
        { pes_packets := [(1, { packet := samplePesPacket [1, 2],
                                data_len := some 3 })],
          ignore_packet_header_length := false, eos := false }
        (rawTsPacket 1 [3, 4])
      = .ok ({ pes_packets := [], ignore_packet_header_length := false,
               eos := false }, none)
    ∧ PesPacketDecoder.boundedOk
        { pes_packets :=
            [(1, { packet := samplePesPacket [5], data_len := some 7 })],
          ignore_packet_header_length := false, eos := false } = true := by
  constructor
  · have h := claim6_amended.2.2.1
      { pes_packets := [(1, { packet := samplePesPacket [1, 2],
                              data_len := some 3 })],
        ignore_packet_header_length := false, eos := false }
      (rawTsPacket 1 [3, 4]) [3, 4]
      { packet := samplePesPacket [1, 2], data_len := some 3 } 3
      (by decide) (by decide) (by decide) (by decide) (by decide)
    exact h
  · have h := claim6_amended.2.2.2 none [pesTsPacket 1 10 [5]]
      { pes_packets :=
          [(1, { packet := samplePesPacket [5], data_len := some 7 })],
        ignore_packet_header_length := false, eos := false }
      [] (by decide) (by decide)
    exact h

/-- C8: the decoder's ignore flag is exactly "the environment variable is
set, case-insensitively, to `true`" (absent or unreadable values count as
`"false"`); the flag never changes across operations; with the flag set
every processed PES payload is stored unbounded (`data_len = none`), and
with it unset a non-zero declared length is honored as
`data_len = some (pes_packet_len − optional_header_len)`. -/
theorem claim8_env_flag :
    (∀ s : List Char,
        (PesPacketDecoder.new (some s)).ignore_packet_header_length
          = (s.map Char.toLower == "true".toList))
    ∧ (PesPacketDecoder.new none).ignore_packet_header_length = false
    ∧ (∀ (d d' : PesPacketDecoder) (ts : TsPacket) (o : Option PesPacketV),
        d.process_ts_packet ts = .ok (d', o) →
        d'.ignore_packet_header_length = d.ignore_packet_header_length)
    ∧ (∀ (d d' : PesPacketDecoder) (o : Option PesPacketV),
        d.flush = .ok (d', o) →
        d'.ignore_packet_header_length = d.ignore_packet_header_length)
    ∧ (∀ (d d' : PesPacketDecoder) (pid : Pid) (pes : Pes)
          (o : Option PesPacketV),
        d.ignore_packet_header_length = true →
        d.handle_pes_payload pid pes = .ok (d', o) →
        PesMap.lookup d'.pes_packets pid =
          some { packet := { header := pes.header, data := pes.data },
                 data_len := none })
    ∧ (∀ (d d' : PesPacketDecoder) (pid : Pid) (pes : Pes)
          (o : Option PesPacketV),
        d.ignore_packet_header_length = false →
        pes.pes_packet_len ≠ 0 →
        d.handle_pes_payload pid pes = .ok (d', o) →
        PesMap.lookup d'.pes_packets pid =
          some { packet := { header := pes.header, data := pes.data },
                 data_len :=
                   some (pes.pes_packet_len - pes.header.optional_header_len) }) := by
  refine ⟨fun s => by rfl, by rfl, ?_, ?_, ?_, ?_⟩
  · intro d d' ts o h
    rw [PesPacketDecoder.process_ts_packet_shape h]
  · intro d d' o h
    exact PesPacketDecoder.flush_shape h
  · intro d d' pid pes o hig h
    exact PesPacketDecoder.handle_pes_payload_lookup_unbounded hig h
  · intro d d' pid pes o hig hlen h
    exact PesPacketDecoder.handle_pes_payload_lookup_bounded hig hlen h

/-- C8 (witness): `claim8_env_flag` applied concretely — `"TrUe"` sets the
flag, and a decoder built with it stores a bounded-looking PES (declared
length 10) as unbounded. -/
theorem claim8_env_flag_witness :
    (PesPacketDecoder.new (some "TrUe".toList)).ignore_packet_header_length = true
    ∧ (PesPacketDecoder.new (some "1".toList)).ignore_packet_header_length = false
    ∧ PesMap.lookup
        ({ pes_packets := [(1, { packet := samplePesPacket [9], data_len := none })],
           ignore_packet_header_length := true,
           eos := false : PesPacketDecoder }).pes_packets 1
        = some { packet := samplePesPacket [9], data_len := none }
    ∧ (PesPacketDecoder.new (some "TrUe".toList)).handle_pes_payload 1
        { header := sampleHeader, pes_packet_len := 10, data := [9] }
      = .ok ({ pes_packets := [(1, { packet := samplePesPacket [9], data_len := none })],
               ignore_packet_header_length := true, eos := false }, none) := by
  refine ⟨by decide, by decide, ?_, by decide⟩
  have h := claim8_env_flag.2.2.2.2.1 (PesPacketDecoder.new (some "TrUe".toList))
      { pes_packets := [(1, { packet := samplePesPacket [9], data_len := none })],
        ignore_packet_header_length := true, eos := false }
      1 { header := sampleHeader, pes_packet_len := 10, data := [9] } none
      (by decide) (by decide)
  exact h

/-- C10: whenever reading the next PES packet would produce an error,
`peek_pes_packet` discards the error and returns `None`, so an
error-producing stream is indistinguishable from end-of-stream at the peek
interface. -/
theorem claim10_peek_discards_errors :
    ∀ (r : PesPacketReader) (e : ErrorKind),
      r.read_pes_packet = .error e → (r.peek_pes_packet).2 = none := by
  intro r e h
  unfold PesPacketReader.peek_pes_packet
  cases hp : r.peeked_packet with
  | some p =>
      exfalso
      unfold PesPacketReader.read_pes_packet at h
      rw [hp] at h
      dsimp only at h
      unfold PesPacketReader.push_if_marked at h
      dsimp only at h
      split at h <;> simp at h
  | none =>
      simp only [hp, h]

/-- C10 (witness): `claim10_peek_discards_errors` applied to a reader whose
next PES packet has `pes_packet_len = 2`, smaller than its optional header
length 3, so the read errors with `InvalidInput` while the peek returns
`none`. -/
theorem claim10_witness :
    badPesReader.read_pes_packet = .error .invalidInput
    ∧ (badPesReader.peek_pes_packet).2 = none :=
  ⟨by decide,
   claim10_peek_discards_errors badPesReader .invalidInput (by decide)⟩

/-! ## Claims C3, C4, C5 -/

/-- C3 (counterexample): a PAT announces PMT PID `0x100`; the PMT on `0x100`
announces elementary PID `0x200`, classifying it `Pes`; a second PAT then
lists `0x200` as a program_map PID and the table remaps it to `Pmt` —
`pids.insert(pa.program_map_pid, PidKind::Pmt)` runs unconditionally, so a
PID that maps to `Pes` can map to `Pmt` again within the same reader. -/
theorem claim3_counterexample :
    PidMap.lookup
        (((TsPacketReader.new
              [.packet (patWire [0x100]), .packet (pmtWire 0x100 [0x200]),
               .packet (patWire [0x200])]).read_ts_packet.1).read_ts_packet.1).pids
        0x200 = some .pes
    ∧ PidMap.lookup
        ((((TsPacketReader.new
              [.packet (patWire [0x100]), .packet (pmtWire 0x100 [0x200]),
               .packet (patWire [0x200])]).read_ts_packet.1).read_ts_packet.1).read_ts_packet.1).pids
        0x200 = some .pmt := by
  refine ⟨by decide, by decide⟩

/-- C3 (amended): once a PID maps to `Pes`, it still maps to `Pes` after any
`read_ts_packet` whose consumed packets include no PAT listing that PID as a
program_map PID; in particular later PMTs never reclassify it.  Only a PAT
entry naming the PID can remap it to `Pmt` (as the counterexample shows). -/
theorem claim3_amended :
    ∀ (s : TsPacketReader) (p : Pid),
      PidMap.lookup s.pids p = some .pes →
      (∀ w : WirePacket, SourceEvent.packet w ∈ s.stream → p ∉ w.patPids) →
      PidMap.lookup (s.read_ts_packet.1).pids p = some .pes := by
  intro s p hp hpat
  unfold TsPacketReader.read_ts_packet
  cases hpk : s.peeked_packet with
  | some q => exact hp
  | none =>
      dsimp only
      unfold TsPacketReader.get_next_available_packet
      exact getAvailLoop_pes_preserved s.stream s.pids p hp hpat

/-- C3 (witness): `claim3_amended` applied to a reader whose table maps
`0x200` to `Pes` and whose stream holds one PMT that re-announces `0x200` as
an elementary PID — after the read, `0x200` still maps to `Pes`. -/
theorem claim3_amended_witness :
    PidMap.lookup
        (TsPacketReader.read_ts_packet
            { peeked_packet := none,
              stream := [.packet (pmtWire 0x100 [0x200])],
              pids := [(0x100, .pmt), (0x200, .pes)] }).1.pids
        0x200 = some .pes := by
  exact claim3_amended
    { peeked_packet := none,
      stream := [.packet (pmtWire 0x100 [0x200])],
      pids := [(0x100, .pmt), (0x200, .pes)] }
    0x200 (by decide)
    (by
      intro w hw
      simp only [List.mem_singleton] at hw
      have hw2 : w = pmtWire 0x100 [0x200] := by
        cases hw
        rfl
      rw [hw2]
      decide)

/-- C4: a mid-stream TS packet that fails to parse is skipped (with a trace
log) and reading resumes at the next 188-byte window: when the head packet
of the source fails to parse, `read_ts_packet` behaves exactly as on the
source without it.  Concretely, for `[valid₁, corrupt (sync byte 0x00),
valid₂]` the successive reads yield `Some(valid₁)`, `Some(valid₂)`,
`None`. -/
theorem claim4_skip_and_resume :
    (∀ (s : TsPacketReader) (w : WirePacket) (rest : List SourceEvent)
        (e : ErrorKind),
        s.peeked_packet = none →
        s.stream = .packet w :: rest →
        parseWire w s.pids = .error e →
        s.read_ts_packet = TsPacketReader.read_ts_packet { s with stream := rest })
    ∧ (TsPacketReader.new
          [.packet nullWire, .packet corruptWire, .packet nullWire]).read_ts_packet
        = ({ peeked_packet := none,
             stream := [.packet corruptWire, .packet nullWire], pids := [] },
           .ok (some nullTsPacket))
    ∧ TsPacketReader.read_ts_packet
        { peeked_packet := none,
          stream := [.packet corruptWire, .packet nullWire], pids := [] }
        = ({ peeked_packet := none, stream := [], pids := [] },
           .ok (some nullTsPacket))
    ∧ TsPacketReader.read_ts_packet
        { peeked_packet := none, stream := [], pids := [] }
        = ({ peeked_packet := none, stream := [], pids := [] }, .ok none) := by
  refine ⟨?_, by decide, by decide, by decide⟩
  intro s w rest e hpk hst hpw
  rcases s with ⟨pk, st, pd⟩
  dsimp only at hpk hst hpw
  subst hpk
  subst hst
  unfold TsPacketReader.read_ts_packet TsPacketReader.get_next_available_packet
  dsimp only
  rw [getAvailLoop_cons_error (.packet w) rest pd
    (by simp [readEvent, hpw] : readEvent (.packet w) pd = .error e)]

/-- C4 (witness): `claim4_skip_and_resume` applied to the corrupt middle
packet of the concrete scenario. -/
theorem claim4_witness :
    parseWire corruptWire [] = .error .invalidInput
    ∧ TsPacketReader.read_ts_packet
        { peeked_packet := none,
          stream := [.packet corruptWire, .packet nullWire], pids := [] }
      = TsPacketReader.read_ts_packet
        { peeked_packet := none, stream := [.packet nullWire], pids := [] } := by
  refine ⟨by decide, ?_⟩
  exact claim4_skip_and_resume.1
    { peeked_packet := none,
      stream := [.packet corruptWire, .packet nullWire], pids := [] }
    corruptWire [.packet nullWire] .invalidInput (by decide) (by decide)
    (by decide)

/-- C5: contrary to the claim, `read_ts_packet` never surfaces an error: an
I/O failure of the underlying source is swallowed by the same retry loop
that drops malformed packets (`get_next_available_packet`), so a source that
fails with an I/O error then ends looks like a clean end of stream, and one
that fails then recovers looks like an unbroken stream.  Every result of
`read_ts_packet` is `Ok`. -/
theorem claim5_io_swallowed :
    (TsPacketReader.new [.ioFailure]).read_ts_packet
      = ({ peeked_packet := none, stream := [], pids := [] }, .ok none)
    ∧ (TsPacketReader.new [.ioFailure, .packet nullWire]).read_ts_packet
      = ({ peeked_packet := none, stream := [], pids := [] },
         .ok (some nullTsPacket))
    ∧ (∀ s : TsPacketReader, ∃ (s' : TsPacketReader) (o : Option TsPacket),
        s.read_ts_packet = (s', Except.ok o)) := by
  refine ⟨by decide, by decide, ?_⟩
  intro s
  cases hpk : s.peeked_packet with
  | some p =>
      refine ⟨{ s with peeked_packet := none }, some p, ?_⟩
      unfold TsPacketReader.read_ts_packet
      rw [hpk]
  | none =>
      refine ⟨s.get_next_available_packet.1, s.get_next_available_packet.2, ?_⟩
      unfold TsPacketReader.read_ts_packet
      rw [hpk]

/-! ## Claim C9 -/

/-- C9: the reassembly logic duplicated inside `PesPacketReader` (its own
`handle_eos`, `handle_pes_payload`, `handle_raw_payload` over its own
`pes_packets` map, and the packet-pulling loop built from them) computes,
from corresponding states, exactly the same emitted PES packets, errors, and
final reassembly state (`pes_packets`, `eos`, ignore flag) as
`PesPacketDecoder`'s corresponding functions, for every PID, payload and
sequence of TS packets. -/
theorem claim9_reader_decoder_equiv :
    ∀ (r : PesPacketReader) (d : PesPacketDecoder),
      r.pes_packets = d.pes_packets → r.eos = d.eos →
      r.ignore_packet_header_length = d.ignore_packet_header_length →
      rproj r.handle_eos = dproj d.handle_eos
      ∧ (∀ (pid : Pid) (pes : Pes),
          rproj (r.handle_pes_payload pid pes) =
            dproj (d.handle_pes_payload pid pes))
      ∧ (∀ (pid : Pid) (b : List Nat),
          rproj (r.handle_raw_payload pid b) =
            dproj (d.handle_raw_payload pid b))
      ∧ (∀ pkts : List TsPacket,
          rproj (PesPacketReader.read_loop pkts r) =
            dproj (PesPacketDecoder.read_loop pkts d)) := by
  intro r d hm he hig
  exact ⟨handle_eos_equiv hm he hig,
         fun pid pes => handle_pes_payload_equiv hm he hig pid pes,
         fun pid b => handle_raw_payload_equiv hm he hig pid b,
         fun pkts => read_loop_equiv pkts r d hm he hig⟩

/-- C9 (witness): `claim9_reader_decoder_equiv` applied to corresponding
concrete states holding one bounded partial that a raw byte completes; both
sides emit the same completed packet from the same final state. -/
theorem claim9_witness :
    rproj (PesPacketReader.handle_raw_payload
        { peeked_packet := none, ts_packets := [],
          pes_packets := [(1, { packet := samplePesPacket [1, 2],
                                data_len := some 3 })],
          eos := false, is_marked := false, back_buffer := [],
          ignore_packet_header_length := false } 1 [3])
      = dproj (PesPacketDecoder.handle_raw_payload
        { pes_packets := [(1, { packet := samplePesPacket [1, 2],
                                data_len := some 3 })],
          ignore_packet_header_length := false, eos := false } 1 [3])
    ∧ dproj (PesPacketDecoder.handle_raw_payload
        { pes_packets := [(1, { packet := samplePesPacket [1, 2],
                                data_len := some 3 })],
          ignore_packet_header_length := false, eos := false } 1 [3])
      = .ok (([], false, false), some (samplePesPacket [1, 2, 3])) := by
  refine ⟨?_, by decide⟩
  exact (claim9_reader_decoder_equiv
    { peeked_packet := none, ts_packets := [],
      pes_packets := [(1, { packet := samplePesPacket [1, 2],
                            data_len := some 3 })],
      eos := false, is_marked := false, back_buffer := [],
      ignore_packet_header_length := false }
    { pes_packets := [(1, { packet := samplePesPacket [1, 2],
                            data_len := some 3 })],
      ignore_packet_header_length := false, eos := false }
    (by decide) (by decide) (by decide)).2.2.1 1 [3]

/-! ## Claims C2 and C7 -/

/-- C2 (counterexample): over a stream of three unbounded PES packets `a`,
`b`, `c` on one PID, run `mark; read→a; read→b; reset; read→a; mark; read;
reset; read`.  The single read between the second `mark` and `reset`
returns `c` (pulled from the stream, because a marked reader bypasses its
non-empty back-buffer), but the first read after that `reset` returns `b` —
not the `c` that was read between mark and reset, refuting the claimed
replay. -/
theorem claim2_counterexample :
    c2protocol = .ok (some (samplePesPacket [3]), some (samplePesPacket [2]))
    ∧ samplePesPacket [3] ≠ samplePesPacket [2] :=
  ⟨by decide, by decide⟩

/-- C2 (amended): provided the back-buffer and the peek slot are empty when
`mark()` succeeds, the `k` reads `r₁..rₖ` performed before `reset()` are
replayed by the next `k` reads after `reset()`, in order, with no new
packet pulled from the underlying stream (the final state differs from the
post-reset state only in the emptied back-buffer). -/
theorem claim2_amended :
    ∀ (k : Nat) (r0 r1 r2 r3 : PesPacketReader)
      (outs : List (Option PesPacketV)) (ps : List PesPacketV),
      r0.back_buffer = [] →
      r0.peeked_packet = none →
      r0.mark = .ok r1 →
      PesPacketReader.readN k r1 = .ok (r2, outs) →
      outs = ps.map some →
      r2.reset = .ok r3 →
      PesPacketReader.readN k r3 = .ok ({ r3 with back_buffer := [] }, outs) := by
  intro k r0 r1 r2 r3 outs ps hbb hpk hmark hreads houts hreset
  obtain ⟨hm0, hr1⟩ := PesPacketReader.mark_ok hmark
  have hr1b : r1.back_buffer = [] := by
    rw [hr1]
    dsimp only
    rw [hbb, hpk]
    rfl
  have hr1m : r1.is_marked = true := by rw [hr1]
  obtain ⟨hbb2, hm2⟩ := PesPacketReader.readN_marked k r1 r2 outs hr1m hreads
  obtain ⟨hm2', hr3⟩ := PesPacketReader.reset_ok hreset
  have hr3b : r3.back_buffer = ps := by
    rw [hr3]
    dsimp only
    rw [hbb2, hr1b, houts, filterMap_id_map_some]
    rfl
  have hr3m : r3.is_marked = false := by rw [hr3]
  have hr3p : r3.peeked_packet = none := by rw [hr3]
  have hlen : outs.length = k :=
    PesPacketReader.readN_length k r1 r2 outs hreads
  have hplen : ps.length = k := by
    rw [houts] at hlen
    simpa using hlen
  have hd := PesPacketReader.readN_unmarked_drain ps r3 hr3m hr3p hr3b
  rw [hplen] at hd
  rw [houts]
  exact hd

/-- C2 (witness): `claim2_amended` applied to the concrete run over `cr0`
with `k = 2`: after mark, two reads (emitting the bodies `[1]` and `[2]`)
and reset, the next two reads replay them in order from the back-buffer. -/
theorem claim2_amended_witness :
    PesPacketReader.readN 2
        { peeked_packet := none, ts_packets := [],
          pes_packets := [(1, { packet := samplePesPacket [3],
                                data_len := none })],
          eos := false, is_marked := false,
          back_buffer := [samplePesPacket [1], samplePesPacket [2]],
          ignore_packet_header_length := false }
      = .ok ({ peeked_packet := none, ts_packets := [],
               pes_packets := [(1, { packet := samplePesPacket [3],
                                     data_len := none })],
               eos := false, is_marked := false, back_buffer := [],
               ignore_packet_header_length := false },
             [some (samplePesPacket [1]), some (samplePesPacket [2])]) := by
  have h := claim2_amended 2 cr0 { cr0 with is_marked := true }
      { peeked_packet := none, ts_packets := [],
        pes_packets := [(1, { packet := samplePesPacket [3],
                              data_len := none })],
        eos := false, is_marked := true,
        back_buffer := [samplePesPacket [1], samplePesPacket [2]],
        ignore_packet_header_length := false }
      { peeked_packet := none, ts_packets := [],
        pes_packets := [(1, { packet := samplePesPacket [3],
                              data_len := none })],
        eos := false, is_marked := false,
        back_buffer := [samplePesPacket [1], samplePesPacket [2]],
        ignore_packet_header_length := false }
      [some (samplePesPacket [1]), some (samplePesPacket [2])]
      [samplePesPacket [1], samplePesPacket [2]]
      (by decide) (by decide) (by decide) (by decide) (by decide) (by decide)
  exact h

/-- C7 (counterexample): peek a packet `p`, mark (which copies `p` into the
back-buffer), read once (returning `p` from the peek slot and, being
marked, pushing `p` onto the back-buffer a second time), and reset.  The
two reads after reset both return `p`: the replayed sequence contains `p`
twice, not exactly once. -/
theorem claim7_counterexample :
    c7protocol = .ok (some (samplePesPacket [1]), some (samplePesPacket [1]),
      some (samplePesPacket [2]))
    ∧ samplePesPacket [1] ≠ samplePesPacket [2] :=
  ⟨by decide, by decide⟩

/-- C7 (amended): if a packet `p` occupies the peek slot and the back-buffer
is empty when `mark()` succeeds, then `mark` copies `p` into the
back-buffer, and after `k` reads (whose results `outs` begin with `p`,
since the first read drains the peek slot and — being marked — pushes `p`
again) and a `reset()`, the next `k+1` reads return `p` followed by all the
reads performed during the mark, in order: `p` is replayed once from the
mark-time copy plus once more because it was itself read during the
mark. -/
theorem claim7_amended :
    ∀ (k : Nat) (r0 : PesPacketReader) (p : PesPacketV)
      (r1 r2 r3 : PesPacketReader)
      (outs : List (Option PesPacketV)) (ps : List PesPacketV),
      r0.back_buffer = [] →
      r0.peeked_packet = some p →
      r0.mark = .ok r1 →
      PesPacketReader.readN k r1 = .ok (r2, outs) →
      outs = ps.map some →
      r2.reset = .ok r3 →
      PesPacketReader.readN (k + 1) r3 =
        .ok ({ r3 with back_buffer := [] }, some p :: outs) := by
  intro k r0 p r1 r2 r3 outs ps hbb hpk hmark hreads houts hreset
  obtain ⟨hm0, hr1⟩ := PesPacketReader.mark_ok hmark
  have hr1b : r1.back_buffer = [p] := by
    rw [hr1]
    dsimp only
    rw [hbb, hpk]
    rfl
  have hr1m : r1.is_marked = true := by rw [hr1]
  obtain ⟨hbb2, hm2⟩ := PesPacketReader.readN_marked k r1 r2 outs hr1m hreads
  obtain ⟨hm2', hr3⟩ := PesPacketReader.reset_ok hreset
  have hr3b : r3.back_buffer = p :: ps := by
    rw [hr3]
    dsimp only
    rw [hbb2, hr1b, houts, filterMap_id_map_some]
    rfl
  have hr3m : r3.is_marked = false := by rw [hr3]
  have hr3p : r3.peeked_packet = none := by rw [hr3]
  have hlen : outs.length = k :=
    PesPacketReader.readN_length k r1 r2 outs hreads
  have hplen : ps.length = k := by
    rw [houts] at hlen
    simpa using hlen
  have hd := PesPacketReader.readN_unmarked_drain (p :: ps) r3 hr3m hr3p hr3b
  simp only [List.length_cons, List.map_cons, hplen] at hd
  rw [houts]
  exact hd

/-- C7 (witness): `claim7_amended` applied to `cr0` after peeking its first
packet (body `[1]`): mark copies it, one read between mark and reset
returns it (pushing it again), and after reset the next two reads both
return it before the stream is touched. -/
theorem claim7_amended_witness :
    PesPacketReader.readN 2
        { peeked_packet := none, ts_packets := [pesTsPacket 1 0 [3]],
          pes_packets := [(1, { packet := samplePesPacket [2],
                                data_len := none })],
          eos := false, is_marked := false,
          back_buffer := [samplePesPacket [1], samplePesPacket [1]],
          ignore_packet_header_length := false }
      = .ok ({ peeked_packet := none, ts_packets := [pesTsPacket 1 0 [3]],
               pes_packets := [(1, { packet := samplePesPacket [2],
                                     data_len := none })],
               eos := false, is_marked := false, back_buffer := [],
               ignore_packet_header_length := false },
             [some (samplePesPacket [1]), some (samplePesPacket [1])]) := by
  have h := claim7_amended 1
      { peeked_packet := some (samplePesPacket [1]),
        ts_packets := [pesTsPacket 1 0 [3]],
        pes_packets := [(1, { packet := samplePesPacket [2],
                              data_len := none })],
        eos := false, is_marked := false, back_buffer := [],
        ignore_packet_header_length := false }
      (samplePesPacket [1])
      { peeked_packet := some (samplePesPacket [1]),
        ts_packets := [pesTsPacket 1 0 [3]],
        pes_packets := [(1, { packet := samplePesPacket [2],
                              data_len := none })],
        eos := false, is_marked := true,
        back_buffer := [samplePesPacket [1]],
        ignore_packet_header_length := false }
      { peeked_packet := none, ts_packets := [pesTsPacket 1 0 [3]],
        pes_packets := [(1, { packet := samplePesPacket [2],
                              data_len := none })],
        eos := false, is_marked := true,
        back_buffer := [samplePesPacket [1], samplePesPacket [1]],
        ignore_packet_header_length := false }
      { peeked_packet := none, ts_packets := [pesTsPacket 1 0 [3]],
        pes_packets := [(1, { packet := samplePesPacket [2],
                              data_len := none })],
        eos := false, is_marked := false,
        back_buffer := [samplePesPacket [1], samplePesPacket [1]],
        ignore_packet_header_length := false }
      [some (samplePesPacket [1])] [samplePesPacket [1]]
      (by decide) (by decide) (by decide) (by decide) (by decide) (by decide)
  exact h

end Mpeg2Ts

